import Mathlib

/-!
# kubevuln: the HTTP entry point and the scan orchestrator

Part 1 embeds `cmd/http/main.go`: the function `main` is translated statement by
statement into a pure function from an environment (everything `main` reads from
the outside world) to the sequence of calls it makes and the way the process ends.

Part 2 models the scan orchestrator (`core/services`, `controllers`), which `main`
only constructs.
-/

namespace Kubevuln

/-! ## Part 1: `cmd/http/main.go` -/

/-- The two signals `main` passes to `signal.NotifyContext`. -/
inductive Signal
  | SIGINT
  | SIGTERM
  deriving DecidableEq, Repr

/-- A `context.Context`, identified by the call that built it.  `InitOtel` is the
context returned by `logger.InitOtel`; that function receives four values
(service name, release, account id, collector URL) and no context, so its result
has no parent among the contexts of `main`. -/
inductive Context
  | Background
  | NotifyContext (parent : Context) (signals : List Signal)
  | InitOtel (serviceName release accountId host : String)
  | WithTimeout (parent : Context) (nanos : Nat)
  deriving DecidableEq, Repr

/-- HTTP methods used by `main`. -/
inductive Method
  | GET
  | POST
  deriving DecidableEq, Repr

/-- The handlers of `controllers.HTTPController` that `main` binds. -/
inductive Handler
  | Ready
  | GenerateSBOM
  | ScanCVE
  deriving DecidableEq, Repr

/-- One registration on the gin router: method, path as passed, handler. -/
structure Route where
  method : Method
  path : String
  handler : Handler
  deriving DecidableEq, Repr

/-- Log levels of `logger.L()` used in `main`.  `Fatal` prints and exits with
status 1. -/
inductive Level
  | Info
  | Fatal
  deriving DecidableEq, Repr

/-- The calls `main` makes, in the order it makes them. -/
inductive Event
  | notifyContext (parent : Context) (signals : List Signal)
  | lookupEnv (key : String)
  | initOtel (serviceName release accountId host : String)
  | newMemoryStorage
  | newSyftAdapter
  | newGrypeAdapter (ctx : Context)
  | newMockPlatform
  | newScanService (cveAdapter : Nat)
  | newHTTPController (workers : Nat)
  | ginDefault
  | use (middleware : String)
  | handle (route : Route)
  | goListenAndServe (addr : String)
  | waitDone (ctx : Context)
  | stop
  | log (level : Level) (ctx : Option Context) (msg : String) (err : Option String)
  | withTimeout (parent : Context) (nanos : Nat)
  | srvShutdown (ctx : Context)
  | controllerShutdown
  | cancel
  | shutdownOtel (ctx : Context)
  deriving DecidableEq, Repr

/-- How the process ends: `main` returns, the process exits through
`logger.Fatal`, or `main` stays blocked on `<-ctx.Done()`. -/
inductive Outcome
  | returned
  | exited (code : Nat)
  | blocked
  deriving DecidableEq, Repr

/-- Everything `main` reads from outside.
* `otelCollectorSvc`, `release`, `accountId`: the process environment;
* `grypeAdapter`, `grypeErr`: the two results of `v1.NewGrypeAdapter`;
* `WebsocketScanCommandVersion`, `SBOMCalculationCommandPath`,
  `WebsocketScanCommandPath`: the constants of package `apis`;
* `listenErr`: an error other than `http.ErrServerClosed` that `ListenAndServe`
  returns while `main` waits;
* `signal`: the signal delivered to the process, if any;
* `otelDone`: whether the context returned by `logger.InitOtel` is ever done;
* `srvShutdownErr`: the result of `srv.Shutdown`. -/
structure Env where
  otelCollectorSvc : Option String
  release : String
  accountId : String
  grypeAdapter : Nat
  grypeErr : Option String
  WebsocketScanCommandVersion : String
  SBOMCalculationCommandPath : String
  WebsocketScanCommandPath : String
  listenErr : Option String
  signal : Option Signal
  otelDone : Bool
  srvShutdownErr : Option String

/-- What an execution of `main` does. -/
structure Run where
  trace : List Event
  outcome : Outcome
  deriving DecidableEq, Repr

/-- The duration `time.Second`, in nanoseconds. -/
def Second : Nat := 1000000000

/-- The format `fmt.Sprintf("%s/%s", a, b)`. -/
def Sprintf (a b : String) : String := a ++ "/" ++ b

/-- Whether the `Done` channel of a context is ever closed in environment `env`.
A `NotifyContext` is done once one of its signals arrives (or its parent is
done); `Background` never is; a timeout context eventually is. -/
def Context.done (env : Env) : Context → Bool
  | .Background => false
  | .NotifyContext parent signals =>
      Context.done env parent ||
        (match env.signal with
         | some s => decide (s ∈ signals)
         | none => false)
  | .InitOtel _ _ _ _ => env.otelDone
  | .WithTimeout _ _ => true

/-- The call `v1.NewGrypeAdapter(ctx)`: an adapter value and an error. -/
def NewGrypeAdapter (env : Env) (_ctx : Context) : Nat × Option String :=
  (env.grypeAdapter, env.grypeErr)

/-- Lines 27-36: the value of the variable `ctx` after the `if` on
`OTEL_COLLECTOR_SVC`.  Line 27 assigns the signal context; line 31 overwrites the
same variable with the result of `logger.InitOtel`. -/
def ctxAfterOtel (env : Env) : Context :=
  let ctx := Context.NotifyContext .Background [.SIGINT, .SIGTERM]
  match env.otelCollectorSvc with
  | some otelHost => Context.InitOtel "kubevuln" env.release env.accountId otelHost
  | none => ctx

/-- Lines 27-63: everything `main` does before it blocks on `<-ctx.Done()`. -/
def startup (env : Env) : List Event :=
  let ctx := ctxAfterOtel env
  let otel : List Event :=
    match env.otelCollectorSvc with
    | some otelHost => [.initOtel "kubevuln" env.release env.accountId otelHost]
    | none => []
  let (cveAdapter, _) := NewGrypeAdapter env ctx
  [.notifyContext .Background [.SIGINT, .SIGTERM], .lookupEnv "OTEL_COLLECTOR_SVC"]
    ++ otel ++
  [ .newMemoryStorage,
    .newSyftAdapter,
    .newGrypeAdapter ctx,
    .newMockPlatform,
    .newScanService cveAdapter,
    .newHTTPController 1,
    .ginDefault,
    .use "kubevuln-svc",
    .handle ⟨.GET, "/v1/ready", .Ready⟩,
    .handle ⟨.POST, Sprintf env.WebsocketScanCommandVersion env.SBOMCalculationCommandPath,
      .GenerateSBOM⟩,
    .handle ⟨.POST, Sprintf env.WebsocketScanCommandVersion env.WebsocketScanCommandPath,
      .ScanCVE⟩,
    .goListenAndServe ":8080" ]

/-- The deferred calls, in the order they run when `main` returns: `cancel`
(line 75), `logger.ShutdownOtel(ctx)` (line 35, with `ctx` as it was when the
`defer` statement ran), `stop` (line 28). -/
def deferred (env : Env) : List Event :=
  [.cancel] ++
  (match env.otelCollectorSvc with
   | some _ => [.shutdownOtel (ctxAfterOtel env)]
   | none => []) ++
  [.stop]

/-- The function `main` of `cmd/http/main.go`. -/
def main (env : Env) : Run :=
  let ctx := ctxAfterOtel env
  let pre := startup env ++ [.waitDone ctx]
  match env.listenErr with
  | some err =>
      -- the goroutine of line 59: `Fatal("router error")`
      ⟨pre ++ [.log .Fatal (some ctx) "router error" (some err)], .exited 1⟩
  | none =>
      if Context.done env ctx then
        let ctx := Context.WithTimeout .Background (5 * Second)
        let down : List Event :=
          [.stop, .log .Info none "shutting down gracefully" none,
           .withTimeout .Background (5 * Second), .srvShutdown ctx]
        match env.srvShutdownErr with
        | some err =>
            ⟨pre ++ down ++ [.log .Fatal (some ctx) "server forced to shutdown" (some err)],
              .exited 1⟩
        | none =>
            ⟨pre ++ down ++ [.controllerShutdown, .log .Info none "kubevuln exiting" none]
              ++ deferred env, .returned⟩
      else
        ⟨pre, .blocked⟩

/-- The routes registered on the router, in order. -/
def routes : List Event → List Route
  | [] => []
  | .handle r :: es => r :: routes es
  | _ :: es => routes es

/-- The context `main` blocks on, if it reaches `<-ctx.Done()`. -/
def waitedContexts : List Event → List Context
  | [] => []
  | .waitDone c :: es => c :: waitedContexts es
  | _ :: es => waitedContexts es

/-- The worker counts passed to `controllers.NewHTTPController`. -/
def workerCounts : List Event → List Nat
  | [] => []
  | .newHTTPController n :: es => n :: workerCounts es
  | _ :: es => workerCounts es

/-- A concrete environment: no tracing, SIGTERM delivered, `srv.Shutdown` fails
with the error of an expired grace period. -/
def envShutdownFails : Env :=
  { otelCollectorSvc := none, release := "", accountId := "", grypeAdapter := 1,
    grypeErr := none, WebsocketScanCommandVersion := "v1",
    SBOMCalculationCommandPath := "sbomCalculation",
    WebsocketScanCommandPath := "scanImage",
    listenErr := none, signal := some .SIGTERM, otelDone := false,
    srvShutdownErr := some "context deadline exceeded" }

/-- A concrete environment: no tracing, SIGTERM delivered, `srv.Shutdown`
succeeds. -/
def envGraceful : Env :=
  { envShutdownFails with srvShutdownErr := none }

/-- A concrete environment: `OTEL_COLLECTOR_SVC=otel-collector:4317`, SIGTERM
delivered, the tracing context never done. -/
def envOtel : Env :=
  { envGraceful with otelCollectorSvc := some "otel-collector:4317" }

/-- A concrete environment: `v1.NewGrypeAdapter` returns a nil adapter and an
error; no signal arrives. -/
def envGrypeFails : Env :=
  { envGraceful with grypeAdapter := 0, grypeErr := some "failed to load database",
                     signal := none }

/-! ## Part 2: the scan orchestrator

`main` builds the orchestrator with `services.NewScanService` and
`controllers.NewHTTPController(service, 1)`; neither package is among the source
files, so the orchestrator is modelled from the specification (sections 3 to 5).
Concurrency is modelled by interleaving: every operation the specification asks to
be atomic is one `Action`, and a reachable state is the result of any finite
sequence of actions from the initial state. -/

/-- Modelled from the spec: the type ImageIdentity, the normalized reference of a
container image, is the dedup and cache key (section 3). -/
abbrev ImageIdentity := String

/-- Modelled from the spec: the type SBOM is an opaque payload (section 3). -/
abbrev SBOM := Nat

/-- Modelled from the spec: the type CVEManifest is an opaque payload (section 3). -/
abbrev CVEManifest := Nat

/-- Modelled from the spec: the requested pipeline stage set of a ScanRequest,
"SBOM only, or SBOM+CVE" (section 3). -/
inductive StageSet
  | sbomOnly
  | sbomAndCVE
  deriving DecidableEq, Repr

/-- Modelled from the spec: the error taxonomy of section 7. -/
inductive Cause
  | InvalidImageReference
  | SBOMGenerationError
  | CVEResolutionError
  | Timeout
  | ShutdownInProgress
  | StoreUnavailable
  deriving DecidableEq, Repr

/-- Modelled from the spec: the states of a PipelineRun (section 4.1). -/
inductive Stage
  | Queued
  | GeneratingSBOM
  | SBOMReady
  | ResolvingCVEs
  | Completed
  | Failed (cause : Cause)
  deriving DecidableEq, Repr

/-- Modelled from the spec: a ScanRequest (section 3).  `image` is `none` when
the reference cannot be resolved or normalized. -/
structure ScanRequest where
  image : Option ImageIdentity
  correlation : Nat
  metadata : Option String
  stages : StageSet
  deriving DecidableEq, Repr

/-- Modelled from the spec: what a handle resolves to, "either a success payload
(SBOM, and CVEManifest if requested) or a typed failure" (section 4.1). -/
inductive Result
  | success (sbom : SBOM) (cve : Option CVEManifest)
  | failure (cause : Cause)
  deriving DecidableEq, Repr

/-- Modelled from the spec: how a call to the Generator or the Resolver ends: a
value, an error, or the deadline of the call (section 5). -/
inductive CallOutcome (α : Type)
  | ok (a : α)
  | error
  | timeout
  deriving DecidableEq, Repr

/-- Modelled from the spec: the calls to external collaborators made on behalf
of one PipelineRun, recorded for observation: the Generator call, with the identity
it was invoked with and how it ended, an SBOM taken from the store, with the key it
was read under, the Resolver invoked with an SBOM, how the Resolver call ended, and
the `Put`s with their success. -/
inductive Call
  | generator (image : ImageIdentity) (outcome : CallOutcome SBOM)
  | cacheGet (image : ImageIdentity) (sbom : SBOM)
  | putSBOM (sbom : SBOM) (ok : Bool)
  | resolver (sbom : SBOM)
  | resolved (outcome : CallOutcome CVEManifest)
  | putCVE (cve : CVEManifest) (ok : Bool)
  deriving DecidableEq, Repr

/-- Modelled from the spec: the PipelineRun record (section 3): the stage, the
requested stage set, the artifacts once produced, and the waiter set; `calls` is
the observation log of the run.  Start time and cancellation signal carry no
behaviour in the specification and are left out. -/
structure PipelineRun where
  image : ImageIdentity
  stages : StageSet
  stage : Stage
  sbom : Option SBOM
  cve : Option CVEManifest
  waiters : List ScanRequest
  calls : List Call
  deriving DecidableEq, Repr

/-- Modelled from the spec: the Artifact Store, "key-value persistence for SBOM
and CVE-manifest artifacts, keyed by image identity" (section 2); the two fields
are `Get(ImageIdentity, kind)` for the two kinds. -/
structure ArtifactStore where
  sbom : ImageIdentity → Option SBOM
  cve : ImageIdentity → Option CVEManifest

/-- Modelled from the spec: the call `Put(ImageIdentity, SBOM, artifact)`. -/
def ArtifactStore.putSBOM (st : ArtifactStore) (I : ImageIdentity) (sb : SBOM) :
    ArtifactStore :=
  { st with sbom := fun J => if J = I then some sb else st.sbom J }

/-- Modelled from the spec: the call `Put(ImageIdentity, CVEManifest, artifact)`. -/
def ArtifactStore.putCVE (st : ArtifactStore) (I : ImageIdentity) (m : CVEManifest) :
    ArtifactStore :=
  { st with cve := fun J => if J = I then some m else st.cve J }

/-- Modelled from the spec: the cached result "matching the requested stage set"
for an identity, if the store holds one (section 4.1, the dedup fast path). -/
def cached (st : ArtifactStore) (I : ImageIdentity) : StageSet → Option Result
  | .sbomOnly =>
      match st.sbom I with
      | some sb => some (.success sb none)
      | none => none
  | .sbomAndCVE =>
      match st.sbom I, st.cve I with
      | some sb, some m => some (.success sb (some m))
      | _, _ => none

/-- Modelled from the spec: the state of the Scan Orchestrator: the configured
worker count, the Artifact Store, the in-flight-run table in submission order (its
`Queued` entries are the FIFO backlog), the drain flag, and four observation
logs: the identities for which a PipelineRun was created, the SBOMs the Generator
returned with the identity it was invoked with, the results handed to callers, and
the Notifier reports. -/
structure Orchestrator where
  workers : Nat
  store : ArtifactStore
  inflight : List PipelineRun
  draining : Bool
  created : List ImageIdentity
  generated : List (ImageIdentity × SBOM)
  delivered : List (ScanRequest × Result)
  reports : List (ImageIdentity × Result)

/-- Modelled from the spec: the orchestrator at startup, with an empty store. -/
def Orchestrator.init (workers : Nat) : Orchestrator :=
  { workers := workers, store := ⟨fun _ => none, fun _ => none⟩, inflight := [],
    draining := false, created := [], generated := [], delivered := [], reports := [] }

/-- Modelled from the spec: a run occupies a worker slot while it is in one of the
stages between `Queued` and the terminal states (sections 4.2 and 5). -/
def Stage.executing : Stage → Bool
  | .GeneratingSBOM => true
  | .SBOMReady => true
  | .ResolvingCVEs => true
  | _ => false

/-- Modelled from the spec: "`Completed` and `Failed` are terminal" (section 4.1). -/
def Stage.terminal : Stage → Bool
  | .Completed => true
  | .Failed _ => true
  | _ => false

/-- Modelled from the spec: the number of concurrently executing PipelineRuns. -/
def executingCount (s : Orchestrator) : Nat :=
  s.inflight.countP (fun r => r.stage.executing)

/-- Modelled from the spec: the terminal result of a run: the success payload of a
`Completed` run or the typed failure of a `Failed` one. -/
def PipelineRun.result (r : PipelineRun) : Option Result :=
  match r.stage, r.sbom with
  | .Completed, some sb => some (.success sb r.cve)
  | .Failed c, _ => some (.failure c)
  | _, _ => none

/-- Modelled from the spec: the cache lookup of `Submit`; an unavailable store is
"treated as a cache miss for reads" (section 7). -/
def lookup (s : Orchestrator) (I : ImageIdentity) (stages : StageSet) (storeUp : Bool) :
    Option Result :=
  if storeUp then cached s.store I stages else none

/-- Modelled from the spec: the record of a new PipelineRun, "created in
`Queued`" with the submitting request as its only waiter (section 4.1). -/
def PipelineRun.queued (I : ImageIdentity) (req : ScanRequest) : PipelineRun :=
  { image := I, stages := req.stages, stage := .Queued, sbom := none, cve := none,
    waiters := [req], calls := [] }

/-- Modelled from the spec: the operation `Submit` (section 4.1).  An
unresolvable reference fails fast; after drain has begun no request is accepted; a
full cache hit returns at once; otherwise the request joins the in-flight run of
its identity or, when there is none, a new run is created in `Queued`. -/
def submit (s : Orchestrator) (req : ScanRequest) (storeUp : Bool) : Orchestrator :=
  match req.image with
  | none => { s with delivered := s.delivered ++ [(req, .failure .InvalidImageReference)] }
  | some I =>
      if s.draining then
        { s with delivered := s.delivered ++ [(req, .failure .ShutdownInProgress)] }
      else
        match lookup s I req.stages storeUp with
        | some res => { s with delivered := s.delivered ++ [(req, res)] }
        | none =>
            if s.inflight.any (fun r => decide (r.image = I)) then
              { s with inflight := s.inflight.map (fun r =>
                  if r.image = I then { r with waiters := r.waiters ++ [req] } else r) }
            else
              { s with
                inflight := s.inflight ++ [PipelineRun.queued I req],
                created := s.created ++ [I] }

/-- Modelled from the spec: the first `Queued` run of the table is admitted
(section 4.2, "first queued, first admitted"). -/
def promoteFirst : List PipelineRun → List PipelineRun
  | [] => []
  | r :: rs =>
      if r.stage = .Queued then { r with stage := .GeneratingSBOM } :: rs
      else r :: promoteFirst rs

/-- Modelled from the spec: the pool admits a queued run when a slot is free and
drain has not begun (sections 4.2 and 5). -/
def dispatch (s : Orchestrator) : Orchestrator :=
  if s.draining then s
  else if executingCount s < s.workers then { s with inflight := promoteFirst s.inflight }
  else s

/-- Modelled from the spec: stage 1 ends (section 4.1, step 1; section 5 for the
deadline). -/
def PipelineRun.sbomResult (r : PipelineRun) (o : CallOutcome SBOM) (putOk : Bool) :
    PipelineRun :=
  match o with
  | .ok sb => { r with stage := .SBOMReady, sbom := some sb,
                       calls := r.calls ++ [.generator r.image o, .putSBOM sb putOk] }
  | .error => { r with stage := .Failed .SBOMGenerationError,
                       calls := r.calls ++ [.generator r.image o] }
  | .timeout => { r with stage := .Failed .Timeout,
                         calls := r.calls ++ [.generator r.image o] }

/-- Modelled from the spec: the Generator call of the run of identity `I` ends
with outcome `o`; on success the SBOM is written to the store at once (`putOk`
tells whether that `Put` succeeded). -/
def sbomDone (s : Orchestrator) (I : ImageIdentity) (o : CallOutcome SBOM) (putOk : Bool) :
    Orchestrator :=
  if s.inflight.any (fun r => decide (r.image = I) && decide (r.stage = .GeneratingSBOM)) then
    { s with
      inflight := s.inflight.map (fun r =>
        if r.image = I ∧ r.stage = .GeneratingSBOM then r.sbomResult o putOk else r),
      store := match o with
        | .ok sb => if putOk then s.store.putSBOM I sb else s.store
        | _ => s.store,
      generated := match o with
        | .ok sb => s.generated ++ [(I, sb)]
        | _ => s.generated }
  else s

/-- Modelled from the spec: the SBOM stage of the run of identity `I` takes the
SBOM from the store instead of generating it ("produced (or retrieved from cache)",
section 3). -/
def sbomCached (s : Orchestrator) (I : ImageIdentity) : Orchestrator :=
  match s.store.sbom I with
  | none => s
  | some sb =>
      { s with inflight := s.inflight.map (fun r =>
          if r.image = I ∧ r.stage = .GeneratingSBOM then
            { r with stage := .SBOMReady, sbom := some sb,
                     calls := r.calls ++ [.cacheGet I sb] }
          else r) }

/-- Modelled from the spec: what follows `SBOMReady` (section 4.1, steps 2 and 3):
`Completed` when only the SBOM was requested, otherwise `ResolvingCVEs`, where the
Resolver is invoked with the produced SBOM. -/
def PipelineRun.next (r : PipelineRun) : PipelineRun :=
  match r.stages, r.sbom with
  | .sbomOnly, _ => { r with stage := .Completed }
  | .sbomAndCVE, some sb => { r with stage := .ResolvingCVEs, calls := r.calls ++ [.resolver sb] }
  | .sbomAndCVE, none => r

/-- Modelled from the spec: the run of identity `I` leaves `SBOMReady`. -/
def advance (s : Orchestrator) (I : ImageIdentity) : Orchestrator :=
  { s with inflight := s.inflight.map (fun r =>
      if r.image = I ∧ r.stage = .SBOMReady then r.next else r) }

/-- Modelled from the spec: stage 2 ends (section 4.1, step 3; section 5 for the
deadline). -/
def PipelineRun.cveResult (r : PipelineRun) (o : CallOutcome CVEManifest) (putOk : Bool) :
    PipelineRun :=
  match o with
  | .ok m => { r with stage := .Completed, cve := some m,
                      calls := r.calls ++ [.resolved o, .putCVE m putOk] }
  | .error => { r with stage := .Failed .CVEResolutionError,
                       calls := r.calls ++ [.resolved o] }
  | .timeout => { r with stage := .Failed .Timeout, calls := r.calls ++ [.resolved o] }

/-- Modelled from the spec: the Resolver call of the run of identity `I` ends with
outcome `o`; on success the CVEManifest is written to the store. -/
def cveDone (s : Orchestrator) (I : ImageIdentity) (o : CallOutcome CVEManifest)
    (putOk : Bool) : Orchestrator :=
  if s.inflight.any (fun r => decide (r.image = I) && decide (r.stage = .ResolvingCVEs)) then
    { s with
      inflight := s.inflight.map (fun r =>
        if r.image = I ∧ r.stage = .ResolvingCVEs then r.cveResult o putOk else r),
      store := match o with
        | .ok m => if putOk then s.store.putCVE I m else s.store
        | _ => s.store }
  else s

/-- Modelled from the spec: a run that reached `Completed` or `Failed` notifies
every waiter with the identical result, reports once to the Notifier, and its
record is released (section 4.1, step 4). -/
def finish (s : Orchestrator) (I : ImageIdentity) : Orchestrator :=
  match s.inflight.find? (fun r => decide (r.image = I) && r.result.isSome) with
  | none => s
  | some r =>
      match r.result with
      | none => s
      | some res =>
          { s with
            inflight := s.inflight.erase r,
            delivered := s.delivered ++ r.waiters.map (fun q => (q, res)),
            reports := s.reports ++ [(I, res)] }

/-- Modelled from the spec: a waiter whose originating request is cancelled is
dropped from the notification set; the run continues (sections 4.1 and 5). -/
def cancel (s : Orchestrator) (req : ScanRequest) : Orchestrator :=
  { s with inflight := s.inflight.map (fun r =>
      { r with waiters := r.waiters.filter (fun q => decide (q ≠ req)) }) }

/-- Modelled from the spec: the stop signal begins the drain (section 5). -/
def shutdown (s : Orchestrator) : Orchestrator :=
  { s with draining := true }

/-- Modelled from the spec: when the grace period expires every run still
incomplete is abandoned with `ShutdownInProgress` (section 5). -/
def graceExpired (s : Orchestrator) : Orchestrator :=
  if s.draining then
    { s with inflight := s.inflight.map (fun r =>
        if r.stage.terminal then r else { r with stage := .Failed .ShutdownInProgress }) }
  else s

/-- Modelled from the spec: the atomic operations of the orchestrator and the
events of its environment. -/
inductive Action
  | submit (req : ScanRequest) (storeUp : Bool)
  | dispatch
  | sbomDone (image : ImageIdentity) (outcome : CallOutcome SBOM) (putOk : Bool)
  | sbomCached (image : ImageIdentity)
  | advance (image : ImageIdentity)
  | cveDone (image : ImageIdentity) (outcome : CallOutcome CVEManifest) (putOk : Bool)
  | finish (image : ImageIdentity)
  | cancel (req : ScanRequest)
  | shutdown
  | graceExpired
  deriving DecidableEq, Repr

/-- Modelled from the spec: one atomic step of the orchestrator. -/
def step (s : Orchestrator) : Action → Orchestrator
  | .submit req storeUp => submit s req storeUp
  | .dispatch => dispatch s
  | .sbomDone I o putOk => sbomDone s I o putOk
  | .sbomCached I => sbomCached s I
  | .advance I => advance s I
  | .cveDone I o putOk => cveDone s I o putOk
  | .finish I => finish s I
  | .cancel req => cancel s req
  | .shutdown => shutdown s
  | .graceExpired => graceExpired s

/-- Modelled from the spec: the state after a sequence of steps. -/
def exec (s : Orchestrator) (acts : List Action) : Orchestrator :=
  acts.foldl step s

/-! ## Part 3: vocabulary of the claims, invariants and concrete inputs -/

/-- The identities of the in-flight table. -/
def images (l : List PipelineRun) : List ImageIdentity := l.map (fun r => r.image)

/-- The per-run invariant of the pipeline state machine. -/
structure RunOk (r : PipelineRun) : Prop where
  early : r.stage = .Queued ∨ r.stage = .GeneratingSBOM → r.calls = [] ∧ r.sbom = none
  sbom_some : r.stage = .SBOMReady ∨ r.stage = .ResolvingCVEs ∨ r.stage = .Completed →
    r.sbom.isSome = true
  two_stage : r.stage = .ResolvingCVEs → r.stages = .sbomAndCVE
  sbom_src : ∀ sb, r.sbom = some sb →
    Call.generator r.image (.ok sb) ∈ r.calls ∨ Call.cacheGet r.image sb ∈ r.calls
  resolver_sbom : ∀ sb, Call.resolver sb ∈ r.calls → r.sbom = some sb
  failed_gen : ∀ k, Call.generator k .error ∈ r.calls ∨ Call.generator k .timeout ∈ r.calls →
    (∃ c, r.stage = .Failed c) ∧ r.sbom = none ∧ ∀ sb, Call.resolver sb ∉ r.calls
  put_cve : ∀ m b, Call.putCVE m b ∈ r.calls → r.stage = .Completed ∧ r.cve = some m

/-- The store holds the SBOM of every in-flight run whose `Put` succeeded. -/
def StoreOk (s : Orchestrator) : Prop :=
  ∀ r ∈ s.inflight, ∀ sb, Call.putSBOM sb true ∈ r.calls →
    s.store.sbom r.image = some sb ∧ r.sbom = some sb

/-- Every SBOM in the system belongs to its identity: an SBOM the store holds
under a key, and an SBOM an in-flight run holds, was returned by the Generator
invoked with that identity; a run records Generator calls and store reads only for
its own identity; and an SBOM a run read from the store is the one the store holds
under the identity of the run. -/
structure SbomOk (s : Orchestrator) : Prop where
  store_gen : ∀ I sb, s.store.sbom I = some sb → (I, sb) ∈ s.generated
  run_gen : ∀ r ∈ s.inflight, ∀ sb, r.sbom = some sb → (r.image, sb) ∈ s.generated
  cache_key : ∀ r ∈ s.inflight, ∀ k sb, Call.cacheGet k sb ∈ r.calls →
    k = r.image ∧ s.store.sbom r.image = some sb ∧ r.sbom = some sb
  gen_key : ∀ r ∈ s.inflight, ∀ k o, Call.generator k o ∈ r.calls → k = r.image

/-- A transition of one run that leaves its identity and its SBOM alone and
records no new Generator call and no new store read. -/
def Quiet (r r' : PipelineRun) : Prop :=
  r'.image = r.image ∧ r'.sbom = r.sbom ∧
  (∀ k sb, Call.cacheGet k sb ∈ r'.calls → Call.cacheGet k sb ∈ r.calls) ∧
  (∀ k o, Call.generator k o ∈ r'.calls → Call.generator k o ∈ r.calls)

/-- The invariant of the reachable states of the orchestrator. -/
structure Inv (s : Orchestrator) : Prop where
  nodup : (images s.inflight).Nodup
  runs : ∀ r ∈ s.inflight, RunOk r
  stored : StoreOk s
  bounded : executingCount s ≤ s.workers

/-- The per-run transitions of the state machine. -/
inductive Trans : PipelineRun → PipelineRun → Prop
  | waiters (r : PipelineRun) (w : List ScanRequest) : Trans r { r with waiters := w }
  | promote (r : PipelineRun) : r.stage = .Queued → Trans r { r with stage := .GeneratingSBOM }
  | sbomResult (r : PipelineRun) (o : CallOutcome SBOM) (b : Bool) :
      r.stage = .GeneratingSBOM → Trans r (r.sbomResult o b)
  | cached (r : PipelineRun) (sb : SBOM) : r.stage = .GeneratingSBOM →
      Trans r { r with stage := .SBOMReady, sbom := some sb,
                       calls := r.calls ++ [.cacheGet r.image sb] }
  | next (r : PipelineRun) : r.stage = .SBOMReady → Trans r r.next
  | cveResult (r : PipelineRun) (o : CallOutcome CVEManifest) (b : Bool) :
      r.stage = .ResolvingCVEs → Trans r (r.cveResult o b)
  | abandon (r : PipelineRun) : r.stage.terminal = false →
      Trans r { r with stage := .Failed .ShutdownInProgress }

/-- The failure cause of a Resolver call that did not return a manifest. -/
def resolverCause : CallOutcome CVEManifest → Cause
  | .timeout => .Timeout
  | _ => .CVEResolutionError

/-- A request for SBOM and CVEs of the image "img". -/
def reqA : ScanRequest :=
  { image := some "img", correlation := 1, metadata := none, stages := .sbomAndCVE }

/-- Steps that take the run of "img" to `ResolvingCVEs`: submitted, admitted, SBOM
generated and stored, Resolver invoked. -/
def toResolving : List Action :=
  [.submit reqA true, .dispatch, .sbomDone "img" (.ok 7) true, .advance "img"]

/-- The record of the run of "img" after `toResolving`. -/
def runResolving : PipelineRun :=
  { image := "img", stages := .sbomAndCVE, stage := .ResolvingCVEs, sbom := some 7, cve := none,
    waiters := [reqA], calls := [.generator "img" (.ok 7), .putSBOM 7 true, .resolver 7] }

/-- The failure cause of a Generator call that did not return an SBOM. -/
def generatorCause : CallOutcome SBOM → Cause
  | .timeout => .Timeout
  | _ => .SBOMGenerationError

/-- The requests submitted for identity `I` in a sequence of steps. -/
def submitsFor (I : ImageIdentity) : List Action → List ScanRequest
  | [] => []
  | .submit q _ :: as => if q.image = some I then q :: submitsFor I as else submitsFor I as
  | _ :: as => submitsFor I as

/-- A `Submit` for identity `I` in state `s` is accepted and finds no cached
result: it reaches the in-flight table. -/
def misses (s : Orchestrator) (I : ImageIdentity) (q : ScanRequest) (storeUp : Bool) : Bool :=
  !s.draining && (lookup s I q.stages storeUp).isNone

/-- The steps that may be interleaved with the concurrent `Submit` calls for `I`
while none of them has completed, `callers` being the requests submitted for `I`
so far: every `Submit` for `I` is issued before drain begins and misses the cache,
the run of `I` is not finished, and no request submitted so far is cancelled. -/
def allowed (I : ImageIdentity) (callers : List ScanRequest) (s : Orchestrator) :
    Action → Bool
  | .submit q up => if q.image = some I then misses s I q up else true
  | .finish J => decide (J ≠ I)
  | .cancel q => decide (q ∉ callers)
  | _ => true

/-- The requests submitted for `I` so far, after one more step. -/
def callersAfter (I : ImageIdentity) (callers : List ScanRequest) : Action → List ScanRequest
  | .submit q _ => if q.image = some I then callers ++ [q] else callers
  | _ => callers

/-- Every step of the sequence is allowed in the state it is taken in, with the
requests submitted for `I` before it. -/
def window (I : ImageIdentity) : List ScanRequest → Orchestrator → List Action → Bool
  | _, _, [] => true
  | cs, s, a :: as => allowed I cs s a && window I (callersAfter I cs a) (step s a) as

/-- Every waiter of an in-flight run asked for the identity of the run. -/
def WaitersOk (s : Orchestrator) : Prop :=
  ∀ r ∈ s.inflight, ∀ q ∈ r.waiters, q.image = some r.image

/-- The worker count `main` passes to `controllers.NewHTTPController`. -/
def mainWorkers (env : Env) : Nat := (workerCounts (main env).trace).headD 0

/-- A second request for "img", SBOM only. -/
def reqB : ScanRequest :=
  { image := some "img", correlation := 2, metadata := some "deployment/web", stages := .sbomOnly }

/-- A third request for "img". -/
def reqC : ScanRequest :=
  { image := some "img", correlation := 3, metadata := none, stages := .sbomAndCVE }

/-- A request for another image. -/
def reqOther : ScanRequest :=
  { image := some "other", correlation := 4, metadata := none, stages := .sbomOnly }

/-- Steps interleaved with two further `Submit` calls for "img": another identity
is submitted, the pool admits the run, the store is down for the third request, and
the Generator fails. -/
def concurrentSubmits : List Action :=
  [.submit reqB true, .submit reqOther true, .dispatch, .submit reqC false,
   .sbomDone "img" .error false]

/-- Steps in which a second `Submit` for "img" arrives after the stop signal,
while the run of "img" is executing and nothing is cached; the run then completes
within the grace period and is finished. -/
def submitWhileDraining : List Action :=
  [.submit reqA true, .dispatch, .shutdown, .submit reqC true,
   .sbomDone "img" (.ok 7) true, .advance "img", .cveDone "img" (.ok 9) true,
   .finish "img"]

/-- Steps in which the second of two `Submit` calls for "img" is cancelled before
the run, whose Generator fails, is finished. -/
def submitThenCancel : List Action :=
  [.submit reqA true, .submit reqB true, .cancel reqB, .dispatch,
   .sbomDone "img" .error false, .finish "img"]

/-- The record of the run of "img" after `concurrentSubmits`. -/
def runFailed : PipelineRun :=
  { image := "img", stages := .sbomAndCVE, stage := .Failed .SBOMGenerationError,
    sbom := none, cve := none, waiters := [reqA, reqB, reqC],
    calls := [.generator "img" .error] }

/-- The three routes of `main`. -/
def expectedRoutes (env : Env) : List Route :=
  [ ⟨.GET, "/v1/ready", .Ready⟩,
    ⟨.POST, env.WebsocketScanCommandVersion ++ "/" ++ env.SBOMCalculationCommandPath,
      .GenerateSBOM⟩,
    ⟨.POST, env.WebsocketScanCommandVersion ++ "/" ++ env.WebsocketScanCommandPath,
      .ScanCVE⟩ ]

/-- The context `main` passes to `srv.Shutdown`: `context.WithTimeout` of
`context.Background()` and `5*time.Second`, in nanoseconds. -/
def graceContext : Context := .WithTimeout .Background 5000000000

/-- The events that belong to the shutdown sequence or write to the log. -/
def Event.late : Event → Bool
  | .srvShutdown _ => true
  | .controllerShutdown => true
  | .log _ _ _ _ => true
  | _ => false

/-! ## Theorems -/

theorem images_map (f : PipelineRun → PipelineRun) (hf : ∀ r, (f r).image = r.image)
    (l : List PipelineRun) : images (l.map f) = images l := by
  simp [images, List.map_map, Function.comp_def, hf]

theorem images_promoteFirst (l : List PipelineRun) : images (promoteFirst l) = images l := by
  induction l with
  | nil => rfl
  | cons r rs ih =>
    unfold promoteFirst
    split
    · simp [images]
    · simp only [images, List.map_cons] at ih ⊢
      rw [ih]

theorem sbomResult_image (r : PipelineRun) (o : CallOutcome SBOM) (b : Bool) :
    (r.sbomResult o b).image = r.image := by
  cases o <;> rfl

theorem cveResult_image (r : PipelineRun) (o : CallOutcome CVEManifest) (b : Bool) :
    (r.cveResult o b).image = r.image := by
  cases o <;> rfl

theorem next_image (r : PipelineRun) : r.next.image = r.image := by
  unfold PipelineRun.next
  split <;> rfl

/-- Every step either keeps the identities of the table, appends one that was
not there, or erases one entry. -/
theorem images_step (s : Orchestrator) (a : Action) :
    images (step s a).inflight = images s.inflight ∨
    (∃ I, I ∉ images s.inflight ∧ images (step s a).inflight = images s.inflight ++ [I]) ∨
    (∃ r, (step s a).inflight = s.inflight.erase r) := by
  cases a with
  | submit req up =>
    simp only [step, submit]
    cases hi : req.image with
    | none => exact Or.inl rfl
    | some I =>
      simp only
      split
      · exact Or.inl rfl
      · split
        · exact Or.inl rfl
        · split
          · left
            apply images_map
            intro r; split <;> rfl
          · rename_i h
            right; left
            refine ⟨I, ?_, by simp [images, PipelineRun.queued]⟩
            simpa [images] using h
  | dispatch =>
    simp only [step, dispatch]
    split
    · exact Or.inl rfl
    · split
      · exact Or.inl (images_promoteFirst _)
      · exact Or.inl rfl
  | sbomDone I o b =>
    simp only [step, sbomDone]
    split
    · left
      apply images_map
      intro r; split
      · exact sbomResult_image r o b
      · rfl
    · exact Or.inl rfl
  | sbomCached I =>
    simp only [step, sbomCached]
    split
    · exact Or.inl rfl
    · left
      apply images_map
      intro r; split <;> rfl
  | advance I =>
    simp only [step, advance]
    left
    apply images_map
    intro r; split
    · exact next_image r
    · rfl
  | cveDone I o b =>
    simp only [step, cveDone]
    split
    · left
      apply images_map
      intro r; split
      · exact cveResult_image r o b
      · rfl
    · exact Or.inl rfl
  | finish I =>
    simp only [step, finish]
    split
    · exact Or.inl rfl
    · split
      · exact Or.inl rfl
      · exact Or.inr (Or.inr ⟨_, rfl⟩)
  | cancel q =>
    simp only [step, cancel]
    left
    apply images_map
    intro r; rfl
  | shutdown => exact Or.inl rfl
  | graceExpired =>
    simp only [step, graceExpired]
    split
    · left
      apply images_map
      intro r; split <;> rfl
    · exact Or.inl rfl

theorem nodup_step (s : Orchestrator) (a : Action) (h : (images s.inflight).Nodup) :
    (images (step s a).inflight).Nodup := by
  rcases images_step s a with h1 | ⟨I, hI, h1⟩ | ⟨r, h1⟩
  · rw [h1]; exact h
  · rw [h1]
    exact List.Nodup.append h (List.nodup_singleton I) (by simpa using hI)
  · rw [h1]
    exact List.Nodup.sublist ((List.erase_sublist r s.inflight).map _) h

theorem exec_append (s : Orchestrator) (as bs : List Action) :
    exec s (as ++ bs) = exec (exec s as) bs := by
  simp [exec, List.foldl_append]

theorem exec_snoc (s : Orchestrator) (as : List Action) (a : Action) :
    exec s (as ++ [a]) = step (exec s as) a := by
  simp [exec, List.foldl_append]

theorem nodup_exec (s : Orchestrator) (acts : List Action) (h : (images s.inflight).Nodup) :
    (images (exec s acts).inflight).Nodup := by
  induction acts generalizing s with
  | nil => exact h
  | cons a as ih => exact ih (step s a) (nodup_step s a h)

theorem countP_map_le (p : PipelineRun → Bool) (f : PipelineRun → PipelineRun)
    (hf : ∀ r, p (f r) = true → p r = true) (l : List PipelineRun) :
    (l.map f).countP p ≤ l.countP p := by
  induction l with
  | nil => simp
  | cons r rs ih =>
    simp only [List.map_cons, List.countP_cons]
    have : (if p (f r) = true then 1 else 0) ≤ (if p r = true then 1 else 0) := by
      by_cases h : p (f r) = true
      · simp [h, hf r h]
      · simp [h]
    omega

theorem countP_promoteFirst (l : List PipelineRun) :
    (promoteFirst l).countP (fun r => r.stage.executing) ≤
      l.countP (fun r => r.stage.executing) + 1 := by
  induction l with
  | nil => simp [promoteFirst]
  | cons r rs ih =>
    unfold promoteFirst
    split
    · rename_i h
      simp [List.countP_cons, h, Stage.executing]
    · simp only [List.countP_cons]
      omega

theorem workers_step (s : Orchestrator) (a : Action) : (step s a).workers = s.workers := by
  cases a <;> simp only [step, submit, dispatch, sbomDone, sbomCached, advance, cveDone,
    finish, cancel, shutdown, graceExpired] <;> repeat (first | rfl | split)

theorem bounded_step (s : Orchestrator) (a : Action) (h : executingCount s ≤ s.workers) :
    executingCount (step s a) ≤ (step s a).workers := by
  rw [workers_step]
  unfold executingCount at *
  cases a with
  | submit req up =>
    simp only [step, submit]
    cases hi : req.image with
    | none => exact h
    | some I =>
      simp only
      split
      · exact h
      · split
        · exact h
        · split
          · refine le_trans (countP_map_le _ _ ?_ _) h
            intro r; split <;> exact id
          · simpa [List.countP_append, Stage.executing] using h
  | dispatch =>
    simp only [step, dispatch]
    split
    · exact h
    · split
      · rename_i hlt
        unfold executingCount at hlt
        have := countP_promoteFirst s.inflight
        simp only
        omega
      · exact h
  | sbomDone I o b =>
    simp only [step, sbomDone]
    split
    · refine le_trans (countP_map_le _ _ ?_ _) h
      intro r; split
      · rename_i hr
        intro _; rw [hr.2]; rfl
      · exact id
    · exact h
  | sbomCached I =>
    simp only [step, sbomCached]
    split
    · exact h
    · refine le_trans (countP_map_le _ _ ?_ _) h
      intro r; split
      · rename_i hr
        intro _; rw [hr.2]; rfl
      · exact id
  | advance I =>
    simp only [step, advance]
    refine le_trans (countP_map_le _ _ ?_ _) h
    intro r; split
    · rename_i hr
      intro _; rw [hr.2]; rfl
    · exact id
  | cveDone I o b =>
    simp only [step, cveDone]
    split
    · refine le_trans (countP_map_le _ _ ?_ _) h
      intro r; split
      · rename_i hr
        intro _; rw [hr.2]; rfl
      · exact id
    · exact h
  | finish I =>
    simp only [step, finish]
    split
    · exact h
    · split
      · exact h
      · exact le_trans (List.Sublist.countP_le _ (List.erase_sublist _ _)) h
  | cancel q =>
    simp only [step, cancel]
    refine le_trans (countP_map_le _ _ ?_ _) h
    intro r; exact id
  | shutdown => exact h
  | graceExpired =>
    simp only [step, graceExpired]
    split
    · refine le_trans (countP_map_le _ _ ?_ _) h
      intro r; split
      · exact id
      · intro hx; simp [Stage.executing] at hx
    · exact h

theorem bounded_exec (s : Orchestrator) (acts : List Action)
    (h : executingCount s ≤ s.workers) :
    executingCount (exec s acts) ≤ (exec s acts).workers := by
  induction acts generalizing s with
  | nil => exact h
  | cons a as ih => exact ih (step s a) (bounded_step s a h)

theorem workers_exec (s : Orchestrator) (acts : List Action) :
    (exec s acts).workers = s.workers := by
  induction acts generalizing s with
  | nil => rfl
  | cons a as ih => exact (ih (step s a)).trans (workers_step s a)

theorem runOk_new (I : ImageIdentity) (st : StageSet) (w : List ScanRequest) :
    RunOk { image := I, stages := st, stage := .Queued, sbom := none, cve := none,
            waiters := w, calls := [] } := by
  constructor <;> simp

theorem runOk_waiters (r : PipelineRun) (w : List ScanRequest) (h : RunOk r) :
    RunOk { r with waiters := w } :=
  ⟨h.early, h.sbom_some, h.two_stage, h.sbom_src, h.resolver_sbom, h.failed_gen, h.put_cve⟩

theorem runOk_promote (r : PipelineRun) (h : RunOk r) (hs : r.stage = .Queued) :
    RunOk { r with stage := .GeneratingSBOM } := by
  obtain ⟨hc, hb⟩ := h.early (Or.inl hs)
  constructor <;> simp [hc, hb]

theorem runOk_sbomResult (r : PipelineRun) (o : CallOutcome SBOM) (b : Bool) (h : RunOk r)
    (hs : r.stage = .GeneratingSBOM) : RunOk (r.sbomResult o b) := by
  obtain ⟨hc, hb⟩ := h.early (Or.inr hs)
  cases o <;> constructor <;> simp [PipelineRun.sbomResult, hc, hb]

theorem runOk_cached (r : PipelineRun) (sb : SBOM) (h : RunOk r)
    (hs : r.stage = .GeneratingSBOM) :
    RunOk { r with stage := .SBOMReady, sbom := some sb,
                   calls := r.calls ++ [.cacheGet r.image sb] } := by
  obtain ⟨hc, hb⟩ := h.early (Or.inr hs)
  constructor <;> simp [hc, hb]

theorem runOk_next (r : PipelineRun) (h : RunOk r) (hs : r.stage = .SBOMReady) :
    RunOk r.next := by
  have hsome := h.sbom_some (Or.inl hs)
  unfold PipelineRun.next
  split
  · constructor
    · simp
    · intro _; exact hsome
    · simp
    · exact h.sbom_src
    · exact h.resolver_sbom
    · intro k hf
      have := (h.failed_gen k hf).1
      simp [hs] at this
    · intro m b hm
      have := (h.put_cve m b hm).1
      simp [hs] at this
  · rename_i sb hst hsb
    constructor
    · simp
    · intro _; exact hsome
    · intro _; exact hst
    · intro x hx
      rcases h.sbom_src x hx with h1 | h1
      · exact Or.inl (List.mem_append_left _ h1)
      · exact Or.inr (List.mem_append_left _ h1)
    · intro x hx
      simp only [List.mem_append, List.mem_singleton] at hx
      rcases hx with h1 | h1
      · exact h.resolver_sbom x h1
      · cases h1; exact hsb
    · intro k hf
      have hf2 : Call.generator k .error ∈ r.calls ∨ Call.generator k .timeout ∈ r.calls := by
        simpa using hf
      have := (h.failed_gen k hf2).1
      simp [hs] at this
    · intro m b hm
      have hm2 : Call.putCVE m b ∈ r.calls := by simpa using hm
      have := (h.put_cve m b hm2).1
      simp [hs] at this
  · exact h

theorem runOk_cveResult (r : PipelineRun) (o : CallOutcome CVEManifest) (b : Bool)
    (h : RunOk r) (hs : r.stage = .ResolvingCVEs) : RunOk (r.cveResult o b) := by
  have hsome := h.sbom_some (Or.inr (Or.inl hs))
  have hnf : ∀ k, ¬ (Call.generator k .error ∈ r.calls ∨
      Call.generator k .timeout ∈ r.calls) := by
    intro k hf
    have := (h.failed_gen k hf).1
    simp [hs] at this
  have hnp : ∀ m b, Call.putCVE m b ∉ r.calls := by
    intro m b hm
    have := (h.put_cve m b hm).1
    simp [hs] at this
  have hsrc := h.sbom_src
  have hres := h.resolver_sbom
  cases o with
  | ok m =>
    constructor
    · simp [PipelineRun.cveResult]
    · intro _; exact hsome
    · simp [PipelineRun.cveResult]
    · intro x hx
      rcases hsrc x hx with h1 | h1
      · exact Or.inl (List.mem_append_left _ h1)
      · exact Or.inr (List.mem_append_left _ h1)
    · intro x hx
      have : Call.resolver x ∈ r.calls := by simpa [PipelineRun.cveResult] using hx
      exact hres x this
    · intro k hf
      have : Call.generator k .error ∈ r.calls ∨ Call.generator k .timeout ∈ r.calls := by
        simpa [PipelineRun.cveResult] using hf
      exact absurd this (hnf k)
    · intro m2 b2 hm
      have : Call.putCVE m2 b2 ∈ r.calls ∨ (m2 = m ∧ b2 = b) := by
        simpa [PipelineRun.cveResult] using hm
      rcases this with h1 | h1
      · exact absurd h1 (hnp m2 b2)
      · exact ⟨rfl, by rw [h1.1]; rfl⟩
  | error =>
    constructor
    · simp [PipelineRun.cveResult]
    · simp [PipelineRun.cveResult]
    · simp [PipelineRun.cveResult]
    · intro x hx
      rcases hsrc x hx with h1 | h1
      · exact Or.inl (List.mem_append_left _ h1)
      · exact Or.inr (List.mem_append_left _ h1)
    · intro x hx
      have : Call.resolver x ∈ r.calls := by simpa [PipelineRun.cveResult] using hx
      exact hres x this
    · intro k hf
      have : Call.generator k .error ∈ r.calls ∨ Call.generator k .timeout ∈ r.calls := by
        simpa [PipelineRun.cveResult] using hf
      exact absurd this (hnf k)
    · intro m2 b2 hm
      have : Call.putCVE m2 b2 ∈ r.calls := by simpa [PipelineRun.cveResult] using hm
      exact absurd this (hnp m2 b2)
  | timeout =>
    constructor
    · simp [PipelineRun.cveResult]
    · simp [PipelineRun.cveResult]
    · simp [PipelineRun.cveResult]
    · intro x hx
      rcases hsrc x hx with h1 | h1
      · exact Or.inl (List.mem_append_left _ h1)
      · exact Or.inr (List.mem_append_left _ h1)
    · intro x hx
      have : Call.resolver x ∈ r.calls := by simpa [PipelineRun.cveResult] using hx
      exact hres x this
    · intro k hf
      have : Call.generator k .error ∈ r.calls ∨ Call.generator k .timeout ∈ r.calls := by
        simpa [PipelineRun.cveResult] using hf
      exact absurd this (hnf k)
    · intro m2 b2 hm
      have : Call.putCVE m2 b2 ∈ r.calls := by simpa [PipelineRun.cveResult] using hm
      exact absurd this (hnp m2 b2)

theorem runOk_abandon (r : PipelineRun) (h : RunOk r) (hs : r.stage.terminal = false) :
    RunOk { r with stage := .Failed .ShutdownInProgress } := by
  constructor
  · simp
  · simp
  · simp
  · exact h.sbom_src
  · exact h.resolver_sbom
  · intro k hf
    obtain ⟨⟨c, hc⟩, h2, h3⟩ := h.failed_gen k hf
    exact ⟨⟨_, rfl⟩, h2, h3⟩
  · intro m b hm
    have := (h.put_cve m b hm).1
    simp [this, Stage.terminal] at hs

theorem forall_mem_map (P : PipelineRun → Prop) (f : PipelineRun → PipelineRun)
    (l : List PipelineRun) (h : ∀ r ∈ l, P r) (hf : ∀ r ∈ l, P r → P (f r)) :
    ∀ r ∈ l.map f, P r := by
  intro r hr
  obtain ⟨x, hx, rfl⟩ := List.mem_map.1 hr
  exact hf x hx (h x hx)

theorem mem_promoteFirst (l : List PipelineRun) (r : PipelineRun) (h : r ∈ promoteFirst l) :
    r ∈ l ∨ ∃ x ∈ l, x.stage = .Queued ∧ r = { x with stage := .GeneratingSBOM } := by
  induction l with
  | nil => simp [promoteFirst] at h
  | cons y ys ih =>
    unfold promoteFirst at h
    split at h
    · rename_i hq
      rcases List.mem_cons.1 h with h1 | h1
      · exact Or.inr ⟨y, List.mem_cons_self _ _, hq, h1⟩
      · exact Or.inl (List.mem_cons_of_mem _ h1)
    · rcases List.mem_cons.1 h with h1 | h1
      · exact Or.inl (h1 ▸ List.mem_cons_self _ _)
      · rcases ih h1 with h2 | ⟨x, hx, hq, he⟩
        · exact Or.inl (List.mem_cons_of_mem _ h2)
        · exact Or.inr ⟨x, List.mem_cons_of_mem _ hx, hq, he⟩

theorem runs_step (s : Orchestrator) (a : Action) (h : ∀ r ∈ s.inflight, RunOk r) :
    ∀ r ∈ (step s a).inflight, RunOk r := by
  cases a with
  | submit req up =>
    simp only [step, submit]
    cases hi : req.image with
    | none => exact h
    | some I =>
      simp only
      split
      · exact h
      · split
        · exact h
        · split
          · apply forall_mem_map _ _ _ h
            intro r _ hr
            split
            · exact runOk_waiters r _ hr
            · exact hr
          · intro r hr
            rcases List.mem_append.1 hr with h1 | h1
            · exact h r h1
            · rw [List.mem_singleton.1 h1]
              exact runOk_new _ _ _
  | dispatch =>
    simp only [step, dispatch]
    split
    · exact h
    · split
      · intro r hr
        rcases mem_promoteFirst _ _ hr with h1 | ⟨x, hx, hq, he⟩
        · exact h r h1
        · rw [he]; exact runOk_promote x (h x hx) hq
      · exact h
  | sbomDone I o b =>
    simp only [step, sbomDone]
    split
    · apply forall_mem_map _ _ _ h
      intro r _ hr
      split
      · rename_i hc
        exact runOk_sbomResult r o b hr hc.2
      · exact hr
    · exact h
  | sbomCached I =>
    simp only [step, sbomCached]
    split
    · exact h
    · apply forall_mem_map _ _ _ h
      intro r _ hr
      split
      · rename_i hc
        rw [← hc.1]
        exact runOk_cached r _ hr hc.2
      · exact hr
  | advance I =>
    simp only [step, advance]
    apply forall_mem_map _ _ _ h
    intro r _ hr
    split
    · rename_i hc
      exact runOk_next r hr hc.2
    · exact hr
  | cveDone I o b =>
    simp only [step, cveDone]
    split
    · apply forall_mem_map _ _ _ h
      intro r _ hr
      split
      · rename_i hc
        exact runOk_cveResult r o b hr hc.2
      · exact hr
    · exact h
  | finish I =>
    simp only [step, finish]
    split
    · exact h
    · split
      · exact h
      · intro r hr
        exact h r (List.mem_of_mem_erase hr)
  | cancel q =>
    simp only [step, cancel]
    apply forall_mem_map _ _ _ h
    intro r _ hr
    exact runOk_waiters r _ hr
  | shutdown => exact h
  | graceExpired =>
    simp only [step, graceExpired]
    split
    · apply forall_mem_map _ _ _ h
      intro r _ hr
      split
      · exact hr
      · rename_i hc
        exact runOk_abandon r hr (by simpa using hc)
    · exact h

theorem same_of_image (l : List PipelineRun) (h : (images l).Nodup) (x y : PipelineRun)
    (hx : x ∈ l) (hy : y ∈ l) (hxy : x.image = y.image) : x = y :=
  List.inj_on_of_nodup_map h hx hy hxy

theorem next_sbom (r : PipelineRun) : r.next.sbom = r.sbom := by
  unfold PipelineRun.next
  split <;> rfl

theorem next_putSBOM (r : PipelineRun) (sb : SBOM) (b : Bool)
    (h : Call.putSBOM sb b ∈ r.next.calls) : Call.putSBOM sb b ∈ r.calls := by
  unfold PipelineRun.next at h
  split at h
  · exact h
  · simpa using h
  · exact h

theorem stored_step (s : Orchestrator) (a : Action) (hn : (images s.inflight).Nodup)
    (hr : ∀ r ∈ s.inflight, RunOk r) (h : StoreOk s) : StoreOk (step s a) := by
  cases a with
  | submit req up =>
    simp only [step, submit]
    cases hi : req.image with
    | none => exact h
    | some I =>
      simp only
      split
      · exact h
      · split
        · exact h
        · split
          · apply forall_mem_map _ _ _ h
            intro r _ hr
            split
            · exact hr
            · exact hr
          · intro r hr
            rcases List.mem_append.1 hr with h1 | h1
            · exact h r h1
            · rw [List.mem_singleton.1 h1]
              simp [PipelineRun.queued]
  | dispatch =>
    simp only [step, dispatch]
    split
    · exact h
    · split
      · intro r hr
        rcases mem_promoteFirst _ _ hr with h1 | ⟨x, hx, hq, he⟩
        · exact h r h1
        · rw [he]; exact h x hx
      · exact h
  | sbomDone I o b =>
    simp only [step, sbomDone]
    split
    · rename_i hany
      obtain ⟨r0, hr0, hr0c⟩ := List.any_eq_true.1 hany
      simp only [Bool.and_eq_true, decide_eq_true_eq] at hr0c
      intro r' hr' sb hput
      obtain ⟨r, hrm, rfl⟩ := List.mem_map.1 hr'
      simp only
      split at hput
      · rename_i hc
        obtain ⟨hcalls, _⟩ := (hr r hrm).early (Or.inr hc.2)
        cases o with
        | ok x =>
          simp only [PipelineRun.sbomResult, hcalls, List.nil_append, List.mem_cons,
            Call.putSBOM.injEq, List.mem_singleton, reduceCtorEq, false_or,
            List.not_mem_nil, or_false] at hput
          obtain ⟨rfl, rfl⟩ := hput
          simp [hc, PipelineRun.sbomResult, ArtifactStore.putSBOM]
        | error => simp [PipelineRun.sbomResult, hcalls] at hput
        | timeout => simp [PipelineRun.sbomResult, hcalls] at hput
      · rename_i hc
        have hold := h r hrm sb hput
        simp only [hc, if_false]
        refine ⟨?_, hold.2⟩
        have hne : r.image ≠ I := by
          intro he
          have : r = r0 := same_of_image _ hn r r0 hrm hr0 (he.trans hr0c.1.symm)
          exact hc ⟨he, this ▸ hr0c.2⟩
        cases o with
        | ok x =>
          cases b
          · exact hold.1
          · simp [ArtifactStore.putSBOM, hne, hold.1]
        | error => exact hold.1
        | timeout => exact hold.1
    · exact h
  | sbomCached I =>
    simp only [step, sbomCached]
    split
    · exact h
    · intro r' hr' sb hput
      obtain ⟨r, hrm, rfl⟩ := List.mem_map.1 hr'
      split at hput
      · rename_i hc
        obtain ⟨hcalls, _⟩ := (hr r hrm).early (Or.inr hc.2)
        simp [hcalls] at hput
      · rename_i hc
        simp only [hc, if_false]
        exact h r hrm sb hput
  | advance I =>
    simp only [step, advance]
    intro r' hr' sb hput
    obtain ⟨r, hrm, rfl⟩ := List.mem_map.1 hr'
    split at hput
    · rename_i hc
      simp only [hc, and_self, if_true, next_image, next_sbom]
      have hold := h r hrm sb (next_putSBOM r sb true hput)
      rw [hc.1] at hold
      exact hold
    · rename_i hc
      simp only [hc, if_false]
      exact h r hrm sb hput
  | cveDone I o b =>
    simp only [step, cveDone]
    split
    · intro r' hr' sb hput
      obtain ⟨r, hrm, rfl⟩ := List.mem_map.1 hr'
      have hst : ∀ J, (match o with
          | .ok m => if b = true then s.store.putCVE I m else s.store
          | _ => s.store).sbom J = s.store.sbom J := by
        intro J
        cases o <;> cases b <;> rfl
      simp only [hst]
      split at hput
      · rename_i hc
        have hput2 : Call.putSBOM sb true ∈ r.calls := by
          cases o <;> simpa [PipelineRun.cveResult] using hput
        have hold := h r hrm sb hput2
        rw [hc.1] at hold
        simp only [hc, and_self, if_true, cveResult_image]
        refine ⟨hold.1, ?_⟩
        cases o <;> exact hold.2
      · rename_i hc
        simp only [hc, if_false]
        exact h r hrm sb hput
    · exact h
  | finish I =>
    simp only [step, finish]
    split
    · exact h
    · split
      · exact h
      · intro r hr
        exact h r (List.mem_of_mem_erase hr)
  | cancel q =>
    simp only [step, cancel]
    apply forall_mem_map _ _ _ h
    intro r _ hr
    exact hr
  | shutdown => exact h
  | graceExpired =>
    simp only [step, graceExpired]
    split
    · apply forall_mem_map _ _ _ h
      intro r _ hr
      split
      · exact hr
      · exact hr
    · exact h

theorem quiet_refl (r : PipelineRun) : Quiet r r :=
  ⟨rfl, rfl, fun _ _ h => h, fun _ _ h => h⟩

theorem quiet_next (r : PipelineRun) : Quiet r r.next := by
  unfold PipelineRun.next
  split
  · exact quiet_refl r
  · refine ⟨rfl, rfl, ?_, ?_⟩
    · intro k sb h; simpa using h
    · intro k o h; simpa using h
  · exact quiet_refl r

theorem quiet_cveResult (r : PipelineRun) (o : CallOutcome CVEManifest) (b : Bool) :
    Quiet r (r.cveResult o b) := by
  cases o <;> refine ⟨rfl, rfl, ?_, ?_⟩ <;> intro k x h <;>
    simpa [PipelineRun.cveResult] using h

/-- A step whose runs all come from runs of the state before by quiet
transitions, or are fresh, and which leaves the SBOMs of the store and the log of
the Generator alone, keeps `SbomOk`. -/
theorem sbomOk_of_quiet (s s' : Orchestrator) (h : SbomOk s)
    (hst : s'.store.sbom = s.store.sbom) (hg : s'.generated = s.generated)
    (hq : ∀ r' ∈ s'.inflight, (∃ r ∈ s.inflight, Quiet r r') ∨
      (r'.sbom = none ∧ r'.calls = [])) : SbomOk s' := by
  constructor
  · intro I sb hI
    rw [hst] at hI; rw [hg]
    exact h.store_gen I sb hI
  · intro r' hr' sb hsb
    rw [hg]
    rcases hq r' hr' with ⟨r, hr, h1, h2, _, _⟩ | ⟨h1, _⟩
    · rw [h1]; exact h.run_gen r hr sb (h2 ▸ hsb)
    · rw [h1] at hsb; cases hsb
  · intro r' hr' k sb hc
    rcases hq r' hr' with ⟨r, hr, h1, h2, h3, _⟩ | ⟨_, h1⟩
    · rw [h1, h2, hst]; exact h.cache_key r hr k sb (h3 k sb hc)
    · rw [h1] at hc; cases hc
  · intro r' hr' k o hc
    rcases hq r' hr' with ⟨r, hr, h1, _, _, h4⟩ | ⟨_, h1⟩
    · rw [h1]; exact h.gen_key r hr k o (h4 k o hc)
    · rw [h1] at hc; cases hc

theorem quiet_of_mem_map (f : PipelineRun → PipelineRun) (l : List PipelineRun)
    (hf : ∀ r, Quiet r (f r)) (r' : PipelineRun) (h : r' ∈ l.map f) :
    (∃ r ∈ l, Quiet r r') ∨ (r'.sbom = none ∧ r'.calls = []) := by
  obtain ⟨r, hr, rfl⟩ := List.mem_map.1 h
  exact Or.inl ⟨r, hr, hf r⟩

theorem sbomOk_step (s : Orchestrator) (a : Action) (hn : (images s.inflight).Nodup)
    (hr : ∀ r ∈ s.inflight, RunOk r) (h : SbomOk s) : SbomOk (step s a) := by
  have hsame : ∀ r' ∈ s.inflight, (∃ r ∈ s.inflight, Quiet r r') ∨
      (r'.sbom = none ∧ r'.calls = []) :=
    fun r' hr' => Or.inl ⟨r', hr', quiet_refl r'⟩
  cases a with
  | submit req up =>
    simp only [step, submit]
    cases hi : req.image with
    | none => exact sbomOk_of_quiet s _ h rfl rfl hsame
    | some I =>
      simp only
      split
      · exact sbomOk_of_quiet s _ h rfl rfl hsame
      · split
        · exact sbomOk_of_quiet s _ h rfl rfl hsame
        · split
          · refine sbomOk_of_quiet s _ h rfl rfl (quiet_of_mem_map _ _ ?_)
            intro r; split
            · exact quiet_refl r
            · exact quiet_refl r
          · refine sbomOk_of_quiet s _ h rfl rfl ?_
            intro r' hr'
            rcases List.mem_append.1 hr' with h1 | h1
            · exact hsame r' h1
            · rw [List.mem_singleton.1 h1]
              exact Or.inr ⟨rfl, rfl⟩
  | dispatch =>
    simp only [step, dispatch]
    split
    · exact h
    · split
      · refine sbomOk_of_quiet s _ h rfl rfl ?_
        intro r' hr'
        rcases mem_promoteFirst _ _ hr' with h1 | ⟨x, hx, _, he⟩
        · exact hsame r' h1
        · exact Or.inl ⟨x, hx, he ▸ quiet_refl x⟩
      · exact h
  | sbomDone I o b =>
    simp only [step, sbomDone]
    split
    · rename_i hany
      obtain ⟨r0, hr0, hr0c⟩ := List.any_eq_true.1 hany
      simp only [Bool.and_eq_true, decide_eq_true_eq] at hr0c
      have hother : ∀ r ∈ s.inflight, ¬ (r.image = I ∧ r.stage = .GeneratingSBOM) →
          r.image ≠ I := by
        intro r hrm hc he
        have : r = r0 := same_of_image _ hn r r0 hrm hr0 (he.trans hr0c.1.symm)
        exact hc ⟨he, this ▸ hr0c.2⟩
      cases o with
      | ok x =>
        constructor
        · intro J sb hJ
          simp only [List.mem_append, List.mem_singleton, Prod.mk.injEq]
          cases b
          · exact Or.inl (h.store_gen J sb hJ)
          · simp only [ArtifactStore.putSBOM, if_true] at hJ
            split at hJ
            · rename_i hJI
              cases hJ
              exact Or.inr ⟨hJI, rfl⟩
            · exact Or.inl (h.store_gen J sb hJ)
        · intro r' hr' sb hsb
          obtain ⟨r, hrm, rfl⟩ := List.mem_map.1 hr'
          simp only [List.mem_append, List.mem_singleton, Prod.mk.injEq]
          split at hsb
          · rename_i hc
            simp only [PipelineRun.sbomResult, Option.some.injEq] at hsb
            simp only [hc, and_self, if_true, sbomResult_image]
            exact Or.inr ⟨trivial, hsb.symm⟩
          · rename_i hc
            simp only [hc, if_false]
            exact Or.inl (h.run_gen r hrm sb hsb)
        · intro r' hr' k sb hcg
          obtain ⟨r, hrm, rfl⟩ := List.mem_map.1 hr'
          split at hcg
          · rename_i hc
            obtain ⟨hcalls, _⟩ := (hr r hrm).early (Or.inr hc.2)
            simp [PipelineRun.sbomResult, hcalls] at hcg
          · rename_i hc
            simp only [hc, if_false]
            obtain ⟨h1, h2, h3⟩ := h.cache_key r hrm k sb hcg
            refine ⟨h1, ?_, h3⟩
            have hne := hother r hrm hc
            cases b
            · exact h2
            · simp [ArtifactStore.putSBOM, hne, h2]
        · intro r' hr' k o' hcg
          obtain ⟨r, hrm, rfl⟩ := List.mem_map.1 hr'
          split at hcg
          · rename_i hc
            obtain ⟨hcalls, _⟩ := (hr r hrm).early (Or.inr hc.2)
            simp only [hc, and_self, if_true, sbomResult_image]
            simp only [PipelineRun.sbomResult, hcalls, List.nil_append, List.mem_cons,
              Call.generator.injEq, reduceCtorEq, List.mem_singleton, or_false,
              List.not_mem_nil] at hcg
            rw [hcg.1, hc.1]
          · rename_i hc
            simp only [hc, if_false]
            exact h.gen_key r hrm k o' hcg
      | error =>
        constructor
        · exact h.store_gen
        · intro r' hr' sb hsb
          obtain ⟨r, hrm, rfl⟩ := List.mem_map.1 hr'
          split at hsb
          · rename_i hc
            obtain ⟨_, hnone⟩ := (hr r hrm).early (Or.inr hc.2)
            simp [PipelineRun.sbomResult, hnone] at hsb
          · rename_i hc
            simp only [hc, if_false]
            exact h.run_gen r hrm sb hsb
        · intro r' hr' k sb hcg
          obtain ⟨r, hrm, rfl⟩ := List.mem_map.1 hr'
          split at hcg
          · rename_i hc
            obtain ⟨hcalls, _⟩ := (hr r hrm).early (Or.inr hc.2)
            simp [PipelineRun.sbomResult, hcalls] at hcg
          · rename_i hc
            simp only [hc, if_false]
            exact h.cache_key r hrm k sb hcg
        · intro r' hr' k o' hcg
          obtain ⟨r, hrm, rfl⟩ := List.mem_map.1 hr'
          split at hcg
          · rename_i hc
            obtain ⟨hcalls, _⟩ := (hr r hrm).early (Or.inr hc.2)
            simp only [hc, and_self, if_true, sbomResult_image]
            simp only [PipelineRun.sbomResult, hcalls, List.nil_append, List.mem_cons,
              Call.generator.injEq, reduceCtorEq, List.mem_singleton, or_false,
              List.not_mem_nil] at hcg
            rw [hcg.1, hc.1]
          · rename_i hc
            simp only [hc, if_false]
            exact h.gen_key r hrm k o' hcg
      | timeout =>
        constructor
        · exact h.store_gen
        · intro r' hr' sb hsb
          obtain ⟨r, hrm, rfl⟩ := List.mem_map.1 hr'
          split at hsb
          · rename_i hc
            obtain ⟨_, hnone⟩ := (hr r hrm).early (Or.inr hc.2)
            simp [PipelineRun.sbomResult, hnone] at hsb
          · rename_i hc
            simp only [hc, if_false]
            exact h.run_gen r hrm sb hsb
        · intro r' hr' k sb hcg
          obtain ⟨r, hrm, rfl⟩ := List.mem_map.1 hr'
          split at hcg
          · rename_i hc
            obtain ⟨hcalls, _⟩ := (hr r hrm).early (Or.inr hc.2)
            simp [PipelineRun.sbomResult, hcalls] at hcg
          · rename_i hc
            simp only [hc, if_false]
            exact h.cache_key r hrm k sb hcg
        · intro r' hr' k o' hcg
          obtain ⟨r, hrm, rfl⟩ := List.mem_map.1 hr'
          split at hcg
          · rename_i hc
            obtain ⟨hcalls, _⟩ := (hr r hrm).early (Or.inr hc.2)
            simp only [hc, and_self, if_true, sbomResult_image]
            simp only [PipelineRun.sbomResult, hcalls, List.nil_append, List.mem_cons,
              Call.generator.injEq, reduceCtorEq, List.mem_singleton, or_false,
              List.not_mem_nil] at hcg
            rw [hcg.1, hc.1]
          · rename_i hc
            simp only [hc, if_false]
            exact h.gen_key r hrm k o' hcg
    · exact h
  | sbomCached I =>
    simp only [step, sbomCached]
    cases hst : s.store.sbom I with
    | none => exact h
    | some x =>
      simp only
      constructor
      · exact h.store_gen
      · intro r' hr' sb hsb
        obtain ⟨r, hrm, rfl⟩ := List.mem_map.1 hr'
        split at hsb
        · rename_i hc
          simp only [Option.some.injEq] at hsb
          simp only [hc, and_self, if_true]
          rw [← hsb]
          exact h.store_gen I x hst
        · rename_i hc
          simp only [hc, if_false]
          exact h.run_gen r hrm sb hsb
      · intro r' hr' k sb hcg
        obtain ⟨r, hrm, rfl⟩ := List.mem_map.1 hr'
        split at hcg
        · rename_i hc
          obtain ⟨hcalls, _⟩ := (hr r hrm).early (Or.inr hc.2)
          simp only [hcalls, List.nil_append, List.mem_singleton, Call.cacheGet.injEq] at hcg
          simp only [hc, and_self, if_true]
          rw [hcg.1, hcg.2]
          exact ⟨rfl, hst, rfl⟩
        · rename_i hc
          simp only [hc, if_false]
          exact h.cache_key r hrm k sb hcg
      · intro r' hr' k o' hcg
        obtain ⟨r, hrm, rfl⟩ := List.mem_map.1 hr'
        split at hcg
        · rename_i hc
          obtain ⟨hcalls, _⟩ := (hr r hrm).early (Or.inr hc.2)
          simp [hcalls] at hcg
        · rename_i hc
          simp only [hc, if_false]
          exact h.gen_key r hrm k o' hcg
  | advance I =>
    simp only [step, advance]
    refine sbomOk_of_quiet s _ h rfl rfl (quiet_of_mem_map _ _ ?_)
    intro r; split
    · exact quiet_next r
    · exact quiet_refl r
  | cveDone I o b =>
    simp only [step, cveDone]
    split
    · refine sbomOk_of_quiet s _ h ?_ rfl (quiet_of_mem_map _ _ ?_)
      · cases o <;> cases b <;> rfl
      · intro r; split
        · exact quiet_cveResult r o b
        · exact quiet_refl r
    · exact h
  | finish I =>
    simp only [step, finish]
    split
    · exact h
    · split
      · exact h
      · refine sbomOk_of_quiet s _ h rfl rfl ?_
        intro r' hr'
        exact hsame r' (List.mem_of_mem_erase hr')
  | cancel q =>
    simp only [step, cancel]
    refine sbomOk_of_quiet s _ h rfl rfl (quiet_of_mem_map _ _ ?_)
    intro r
    exact quiet_refl _
  | shutdown => exact sbomOk_of_quiet s _ h rfl rfl hsame
  | graceExpired =>
    simp only [step, graceExpired]
    split
    · refine sbomOk_of_quiet s _ h rfl rfl (quiet_of_mem_map _ _ ?_)
      intro r; split
      · exact quiet_refl r
      · exact ⟨rfl, rfl, fun _ _ h => h, fun _ _ h => h⟩
    · exact h

theorem inv_init (w : Nat) : Inv (Orchestrator.init w) := by
  constructor
  · simp [Orchestrator.init, images]
  · simp [Orchestrator.init]
  · simp [StoreOk, Orchestrator.init]
  · simp [executingCount, Orchestrator.init]

theorem inv_step (s : Orchestrator) (a : Action) (h : Inv s) : Inv (step s a) :=
  ⟨nodup_step s a h.nodup, runs_step s a h.runs, stored_step s a h.nodup h.runs h.stored,
    bounded_step s a h.bounded⟩

theorem inv_exec (s : Orchestrator) (acts : List Action) (h : Inv s) : Inv (exec s acts) := by
  induction acts generalizing s with
  | nil => exact h
  | cons a as ih => exact ih (step s a) (inv_step s a h)

theorem inv_reachable (w : Nat) (acts : List Action) : Inv (exec (Orchestrator.init w) acts) :=
  inv_exec _ acts (inv_init w)

theorem sbomOk_exec (s : Orchestrator) (acts : List Action) (hi : Inv s) (h : SbomOk s) :
    SbomOk (exec s acts) := by
  induction acts generalizing s with
  | nil => exact h
  | cons a as ih =>
    exact ih (step s a) (inv_step s a hi) (sbomOk_step s a hi.nodup hi.runs h)

theorem sbomOk_reachable (w : Nat) (acts : List Action) :
    SbomOk (exec (Orchestrator.init w) acts) := by
  apply sbomOk_exec _ acts (inv_init w)
  constructor <;> simp [Orchestrator.init]

theorem Trans.refl (r : PipelineRun) : Trans r r := Trans.waiters r r.waiters

theorem trans_of_mem_map (f : PipelineRun → PipelineRun) (l : List PipelineRun)
    (hf : ∀ r, Trans r (f r)) (r' : PipelineRun) (h : r' ∈ l.map f) :
    ∃ r ∈ l, Trans r r' := by
  obtain ⟨r, hr, rfl⟩ := List.mem_map.1 h
  exact ⟨r, hr, hf r⟩

/-- Every run of the table after a step is a run of the table before it, moved by
one transition, or a fresh run in `Queued`. -/
theorem step_cases (s : Orchestrator) (a : Action) (r' : PipelineRun)
    (h : r' ∈ (step s a).inflight) :
    (∃ r ∈ s.inflight, Trans r r') ∨ (r'.stage = .Queued ∧ r'.calls = []) := by
  cases a with
  | submit req up =>
    simp only [step, submit] at h
    cases hi : req.image with
    | none => rw [hi] at h; exact Or.inl ⟨r', h, Trans.refl r'⟩
    | some I =>
      rw [hi] at h
      simp only at h
      split at h
      · exact Or.inl ⟨r', h, Trans.refl r'⟩
      · split at h
        · exact Or.inl ⟨r', h, Trans.refl r'⟩
        · split at h
          · left
            refine trans_of_mem_map _ _ ?_ r' h
            intro r; split
            · exact Trans.waiters r _
            · exact Trans.refl r
          · rcases List.mem_append.1 h with h1 | h1
            · exact Or.inl ⟨r', h1, Trans.refl r'⟩
            · rw [List.mem_singleton.1 h1]
              exact Or.inr ⟨rfl, rfl⟩
  | dispatch =>
    simp only [step, dispatch] at h
    split at h
    · exact Or.inl ⟨r', h, Trans.refl r'⟩
    · split at h
      · rcases mem_promoteFirst _ _ h with h1 | ⟨x, hx, hq, he⟩
        · exact Or.inl ⟨r', h1, Trans.refl r'⟩
        · exact Or.inl ⟨x, hx, he ▸ Trans.promote x hq⟩
      · exact Or.inl ⟨r', h, Trans.refl r'⟩
  | sbomDone I o b =>
    simp only [step, sbomDone] at h
    split at h
    · left
      refine trans_of_mem_map _ _ ?_ r' h
      intro r; split
      · rename_i hc
        exact Trans.sbomResult r o b hc.2
      · exact Trans.refl r
    · exact Or.inl ⟨r', h, Trans.refl r'⟩
  | sbomCached I =>
    simp only [step, sbomCached] at h
    split at h
    · exact Or.inl ⟨r', h, Trans.refl r'⟩
    · left
      refine trans_of_mem_map _ _ ?_ r' h
      intro r; split
      · rename_i hc
        rw [← hc.1]
        exact Trans.cached r _ hc.2
      · exact Trans.refl r
  | advance I =>
    simp only [step, advance] at h
    left
    refine trans_of_mem_map _ _ ?_ r' h
    intro r; split
    · rename_i hc
      exact Trans.next r hc.2
    · exact Trans.refl r
  | cveDone I o b =>
    simp only [step, cveDone] at h
    split at h
    · left
      refine trans_of_mem_map _ _ ?_ r' h
      intro r; split
      · rename_i hc
        exact Trans.cveResult r o b hc.2
      · exact Trans.refl r
    · exact Or.inl ⟨r', h, Trans.refl r'⟩
  | finish I =>
    simp only [step, finish] at h
    split at h
    · exact Or.inl ⟨r', h, Trans.refl r'⟩
    · split at h
      · exact Or.inl ⟨r', h, Trans.refl r'⟩
      · exact Or.inl ⟨r', List.mem_of_mem_erase h, Trans.refl r'⟩
  | cancel q =>
    simp only [step, cancel] at h
    left
    refine trans_of_mem_map _ _ ?_ r' h
    intro r
    exact Trans.waiters r _
  | shutdown => exact Or.inl ⟨r', h, Trans.refl r'⟩
  | graceExpired =>
    simp only [step, graceExpired] at h
    split at h
    · left
      refine trans_of_mem_map _ _ ?_ r' h
      intro r; split
      · exact Trans.refl r
      · rename_i hc
        exact Trans.abandon r (by simpa using hc)
    · exact Or.inl ⟨r', h, Trans.refl r'⟩

/-- A run is in `ResolvingCVEs` after a transition only if it was there before or
came from `SBOMReady`; identity and SBOM are unchanged. -/
theorem trans_resolving (r r' : PipelineRun) (h : Trans r r') (hs : r'.stage = .ResolvingCVEs) :
    r.image = r'.image ∧ r.sbom = r'.sbom ∧ (r.stage = .SBOMReady ∨ r.stage = .ResolvingCVEs) := by
  cases h with
  | waiters w => exact ⟨rfl, rfl, Or.inr hs⟩
  | promote hq => simp at hs
  | sbomResult o b hg => cases o <;> simp [PipelineRun.sbomResult] at hs
  | cached sb hg => simp at hs
  | next hq => exact ⟨(next_image r).symm, (next_sbom r).symm, Or.inl hq⟩
  | cveResult o b hg => cases o <;> simp [PipelineRun.cveResult] at hs
  | abandon ht => simp at hs

theorem finish_of_mem (s : Orchestrator) (hn : (images s.inflight).Nodup) (r : PipelineRun)
    (hr : r ∈ s.inflight) (res : Result) (hres : r.result = some res) :
    finish s r.image =
      { s with
        inflight := s.inflight.erase r,
        delivered := s.delivered ++ r.waiters.map (fun q => (q, res)),
        reports := s.reports ++ [(r.image, res)] } := by
  unfold finish
  cases hf : s.inflight.find? (fun x => decide (x.image = r.image) && x.result.isSome) with
  | none =>
    have := List.find?_eq_none.1 hf r hr
    simp [hres] at this
  | some x =>
    have hx : x ∈ s.inflight := List.mem_of_find?_eq_some hf
    have hp := List.find?_some hf
    simp only [Bool.and_eq_true, decide_eq_true_eq] at hp
    have : x = r := same_of_image _ hn x r hx hr hp.1
    subst this
    simp [hres]

theorem sbom_kept_step (s : Orchestrator) (a : Action) (I : ImageIdentity)
    (h : (s.store.sbom I).isSome = true) : ((step s a).store.sbom I).isSome = true := by
  cases a with
  | sbomDone J o b =>
    simp only [step, sbomDone]
    split
    · cases o with
      | ok sb =>
        cases b
        · exact h
        · simp only [ArtifactStore.putSBOM, if_true]
          split
          · rfl
          · exact h
      | error => exact h
      | timeout => exact h
    · exact h
  | cveDone J o b =>
    simp only [step, cveDone]
    split
    · cases o with
      | ok m => cases b <;> exact h
      | error => exact h
      | timeout => exact h
    · exact h
  | submit req up =>
    simp only [step, submit]
    repeat (first | exact h | split)
  | dispatch =>
    simp only [step, dispatch]
    repeat (first | exact h | split)
  | sbomCached J =>
    simp only [step, sbomCached]
    repeat (first | exact h | split)
  | advance J => exact h
  | finish J =>
    simp only [step, finish]
    repeat (first | exact h | split)
  | cancel q => exact h
  | shutdown => exact h
  | graceExpired =>
    simp only [step, graceExpired]
    repeat (first | exact h | split)

theorem sbom_kept_exec (s : Orchestrator) (acts : List Action) (I : ImageIdentity)
    (h : (s.store.sbom I).isSome = true) : ((exec s acts).store.sbom I).isSome = true := by
  induction acts generalizing s with
  | nil => exact h
  | cons a as ih => exact ih (step s a) (sbom_kept_step s a I h)

theorem cveDone_fail (s : Orchestrator) (r : PipelineRun) (o : CallOutcome CVEManifest)
    (b : Bool) (hr : r ∈ s.inflight) (hs : r.stage = .ResolvingCVEs)
    (ho : o = .error ∨ o = .timeout) :
    (step s (.cveDone r.image o b)).store = s.store ∧
    r.cveResult o b ∈ (step s (.cveDone r.image o b)).inflight ∧
    (r.cveResult o b).stage = .Failed (resolverCause o) ∧
    (r.cveResult o b).waiters = r.waiters ∧
    (r.cveResult o b).sbom = r.sbom ∧
    (r.cveResult o b).calls = r.calls ++ [.resolved o] := by
  have hany : s.inflight.any
      (fun x => decide (x.image = r.image) && decide (x.stage = .ResolvingCVEs)) = true :=
    List.any_eq_true.2 ⟨r, hr, by simp [hs]⟩
  have hmem : r.cveResult o b ∈ s.inflight.map (fun x =>
      if x.image = r.image ∧ x.stage = .ResolvingCVEs then x.cveResult o b else x) :=
    List.mem_map.2 ⟨r, hr, by simp [hs]⟩
  simp only [step, cveDone, hany, if_true]
  rcases ho with rfl | rfl
  · exact ⟨rfl, hmem, rfl, rfl, rfl, rfl⟩
  · exact ⟨rfl, hmem, rfl, rfl, rfl, rfl⟩

theorem sbomDone_fail (s : Orchestrator) (r : PipelineRun) (o : CallOutcome SBOM)
    (b : Bool) (hr : r ∈ s.inflight) (hs : r.stage = .GeneratingSBOM)
    (ho : o = .error ∨ o = .timeout) :
    (step s (.sbomDone r.image o b)).store = s.store ∧
    r.sbomResult o b ∈ (step s (.sbomDone r.image o b)).inflight ∧
    (r.sbomResult o b).stage = .Failed (generatorCause o) ∧
    (r.sbomResult o b).image = r.image ∧
    Call.generator r.image o ∈ (r.sbomResult o b).calls := by
  have hany : s.inflight.any
      (fun x => decide (x.image = r.image) && decide (x.stage = .GeneratingSBOM)) = true :=
    List.any_eq_true.2 ⟨r, hr, by simp [hs]⟩
  have hmem : r.sbomResult o b ∈ s.inflight.map (fun x =>
      if x.image = r.image ∧ x.stage = .GeneratingSBOM then x.sbomResult o b else x) :=
    List.mem_map.2 ⟨r, hr, by simp [hs]⟩
  simp only [step, sbomDone, hany, if_true]
  rcases ho with rfl | rfl
  · exact ⟨rfl, hmem, rfl, rfl, by simp [PipelineRun.sbomResult]⟩
  · exact ⟨rfl, hmem, rfl, rfl, by simp [PipelineRun.sbomResult]⟩

/-- C3. In every reachable state and for every step from it: a run that is in
`ResolvingCVEs` after the step was in `SBOMReady` or already in `ResolvingCVEs`
before it, with the same identity and the same SBOM, and that SBOM is one the
Generator returned when invoked with the identity of the run; the Resolver is only
ever invoked with the SBOM the run holds, which the Generator returned for the
identity of the run and which the SBOM stage of the same run either generated for
that identity or read from the store under that identity, where the store still
holds it; a run records Generator calls and store reads for its own identity only;
a run whose Generator call ended in an error or a timeout is `Failed`, holds no
SBOM and has no Resolver invocation; and when the Generator call of a run in
`GeneratingSBOM` fails, the step takes the run to `Failed`. -/
theorem cve_stage_only_after_sbom (w : Nat) (acts : List Action) :
    (∀ a r', r' ∈ (step (exec (.init w) acts) a).inflight → r'.stage = .ResolvingCVEs →
      ∃ r ∈ (exec (.init w) acts).inflight,
        r.image = r'.image ∧ r.sbom = r'.sbom ∧ r.sbom.isSome = true ∧
        (r.stage = .SBOMReady ∨ r.stage = .ResolvingCVEs) ∧
        ∃ sb, r'.sbom = some sb ∧ (r'.image, sb) ∈ (exec (.init w) acts).generated) ∧
    (∀ r ∈ (exec (.init w) acts).inflight, ∀ sb, Call.resolver sb ∈ r.calls →
      r.sbom = some sb ∧
      (r.image, sb) ∈ (exec (.init w) acts).generated ∧
      (Call.generator r.image (.ok sb) ∈ r.calls ∨
        (Call.cacheGet r.image sb ∈ r.calls ∧
          (exec (.init w) acts).store.sbom r.image = some sb))) ∧
    (∀ r ∈ (exec (.init w) acts).inflight,
      (∀ k o, Call.generator k o ∈ r.calls → k = r.image) ∧
      (∀ k sb, Call.cacheGet k sb ∈ r.calls → k = r.image)) ∧
    (∀ r ∈ (exec (.init w) acts).inflight, ∀ k,
      Call.generator k .error ∈ r.calls ∨ Call.generator k .timeout ∈ r.calls →
      (∃ c, r.stage = .Failed c) ∧ r.sbom = none ∧ ∀ sb, Call.resolver sb ∉ r.calls) ∧
    (∀ r ∈ (exec (.init w) acts).inflight, r.stage = .GeneratingSBOM →
      ∀ o b, o = .error ∨ o = .timeout →
      ∀ r' ∈ (step (exec (.init w) acts) (.sbomDone r.image o b)).inflight,
        r'.image = r.image →
        r'.stage = .Failed (generatorCause o) ∧ ∀ sb, Call.resolver sb ∉ r'.calls) := by
  have hinv := inv_reachable w acts
  have hsb := sbomOk_reachable w acts
  refine ⟨?_, ?_, ?_, ?_, ?_⟩
  · intro a r' hr' hs
    rcases step_cases _ a r' hr' with ⟨r, hr, ht⟩ | ⟨hq, _⟩
    · obtain ⟨h1, h2, h3⟩ := trans_resolving r r' ht hs
      have hsome : r.sbom.isSome = true := by
        rcases h3 with h3 | h3
        · exact (hinv.runs r hr).sbom_some (Or.inl h3)
        · exact (hinv.runs r hr).sbom_some (Or.inr (Or.inl h3))
      refine ⟨r, hr, h1, h2, hsome, h3, ?_⟩
      cases hx : r.sbom with
      | none => simp [hx] at hsome
      | some sb =>
        refine ⟨sb, by rw [← h2, hx], ?_⟩
        rw [← h1]
        exact hsb.run_gen r hr sb hx
    · rw [hq] at hs; cases hs
  · intro r hr sb hres
    have h1 := (hinv.runs r hr).resolver_sbom sb hres
    refine ⟨h1, hsb.run_gen r hr sb h1, ?_⟩
    rcases (hinv.runs r hr).sbom_src sb h1 with h2 | h2
    · exact Or.inl h2
    · exact Or.inr ⟨h2, (hsb.cache_key r hr _ sb h2).2.1⟩
  · intro r hr
    exact ⟨hsb.gen_key r hr, fun k sb h => (hsb.cache_key r hr k sb h).1⟩
  · intro r hr k hf
    exact (hinv.runs r hr).failed_gen k hf
  · intro r hr hs o b ho r' hr' him
    obtain ⟨_, hmem, hst, himg, hcall⟩ := sbomDone_fail _ r o b hr hs ho
    have hinv' := inv_step _ (.sbomDone r.image o b) hinv
    have : r' = r.sbomResult o b :=
      same_of_image _ hinv'.nodup _ _ hr' hmem (him.trans himg.symm)
    subst this
    refine ⟨hst, ?_⟩
    have hf : Call.generator r.image .error ∈ (r.sbomResult o b).calls ∨
        Call.generator r.image .timeout ∈ (r.sbomResult o b).calls := by
      rcases ho with rfl | rfl
      · exact Or.inl hcall
      · exact Or.inr hcall
    exact ((hinv'.runs _ hmem).failed_gen r.image hf).2.2

/-- C4. For every run that is in `ResolvingCVEs` in a reachable state and whose
Resolver call ends in an error or a timeout: the run is a two-stage run holding the
SBOM its first stage produced; the step takes it to `Failed`, so its result is a
failure, which every waiter and the Notifier receive when the run is finished; the
store is not written, neither by that step nor by the finish, and the run records
no `Put` of a CVEManifest; and an SBOM whose `Put` succeeded in the first stage is
what `Get` returns for the identity afterwards, an SBOM staying retrievable for the
identity through every later sequence of steps. -/
theorem sbom_survives_cve_failure (w : Nat) (acts : List Action) (r : PipelineRun)
    (o : CallOutcome CVEManifest) (b : Bool)
    (hr : r ∈ (exec (.init w) acts).inflight) (hs : r.stage = .ResolvingCVEs)
    (ho : o = .error ∨ o = .timeout) :
    r.stages = .sbomAndCVE ∧
    (∃ sb, r.sbom = some sb ∧
      (Call.generator r.image (.ok sb) ∈ r.calls ∨ Call.cacheGet r.image sb ∈ r.calls)) ∧
    (∃ r1 ∈ (step (exec (.init w) acts) (.cveDone r.image o b)).inflight,
      r1.image = r.image ∧ r1.stage = .Failed (resolverCause o) ∧
      r1.result = some (.failure (resolverCause o)) ∧
      ∀ m p, Call.putCVE m p ∉ r1.calls) ∧
    (∀ q ∈ r.waiters, (q, Result.failure (resolverCause o)) ∈
      (step (step (exec (.init w) acts) (.cveDone r.image o b)) (.finish r.image)).delivered) ∧
    (r.image, Result.failure (resolverCause o)) ∈
      (step (step (exec (.init w) acts) (.cveDone r.image o b)) (.finish r.image)).reports ∧
    (∀ J, (step (exec (.init w) acts) (.cveDone r.image o b)).store.cve J =
        (exec (.init w) acts).store.cve J ∧
      (step (step (exec (.init w) acts) (.cveDone r.image o b)) (.finish r.image)).store.cve J =
        (exec (.init w) acts).store.cve J) ∧
    (∀ sb, Call.putSBOM sb true ∈ r.calls →
      r.sbom = some sb ∧
      (step (step (exec (.init w) acts) (.cveDone r.image o b))
        (.finish r.image)).store.sbom r.image = some sb ∧
      ∀ more, ((exec (step (step (exec (.init w) acts) (.cveDone r.image o b))
        (.finish r.image)) more).store.sbom r.image).isSome = true) := by
  have hinv := inv_reachable w acts
  have hok := hinv.runs r hr
  obtain ⟨hstore, hmem, hst, hwait, hsb, hcalls⟩ := cveDone_fail _ r o b hr hs ho
  have hinv1 := inv_step _ (.cveDone r.image o b) hinv
  have hres : (r.cveResult o b).result = some (.failure (resolverCause o)) := by
    simp [PipelineRun.result, hst]
  have hfin := finish_of_mem _ hinv1.nodup _ hmem _ hres
  rw [cveResult_image] at hfin
  have hstep2 : step (step (exec (.init w) acts) (.cveDone r.image o b)) (.finish r.image) =
      finish (step (exec (.init w) acts) (.cveDone r.image o b)) r.image := rfl
  rw [hstep2, hfin]
  have hnoput : ∀ m p, Call.putCVE m p ∉ r.calls := by
    intro m p hm
    have := ((hok.put_cve m p hm).1)
    rw [hs] at this; cases this
  refine ⟨hok.two_stage hs, ?_, ?_, ?_, ?_, ?_, ?_⟩
  · cases hsome : r.sbom with
    | none =>
      have := hok.sbom_some (Or.inr (Or.inl hs))
      simp [hsome] at this
    | some sb => exact ⟨sb, rfl, hok.sbom_src sb hsome⟩
  · refine ⟨_, hmem, cveResult_image r o b, hst, hres, ?_⟩
    intro m p hm
    rw [hcalls] at hm
    simp only [List.mem_append, List.mem_singleton, reduceCtorEq, or_false] at hm
    exact hnoput m p hm
  · intro q hq
    simp only [List.mem_append, List.mem_map]
    exact Or.inr ⟨q, hwait ▸ hq, rfl⟩
  · simp
  · intro J
    simp only [hstore, and_self]
  · intro sb hput
    obtain ⟨h1, h2⟩ := hinv.stored r hr sb hput
    refine ⟨h2, ?_, ?_⟩
    · simp only [hstore]; exact h1
    · intro more
      apply sbom_kept_exec
      simp only [hstore, h1]; rfl

/-- Witness of C4. -/
theorem sbom_survives_cve_failure_witness :
    runResolving.stages = .sbomAndCVE ∧
    (reqA, Result.failure .Timeout) ∈
      (step (step (exec (.init 1) toResolving) (.cveDone "img" .timeout true))
        (.finish "img")).delivered ∧
    (step (step (exec (.init 1) toResolving) (.cveDone "img" .timeout true))
        (.finish "img")).store.cve "img" = none ∧
    (step (step (exec (.init 1) toResolving) (.cveDone "img" .timeout true))
        (.finish "img")).store.sbom "img" = some 7 := by
  have h := sbom_survives_cve_failure 1 toResolving runResolving .timeout true
    (by decide) rfl (Or.inr rfl)
  exact ⟨h.1, h.2.2.2.1 reqA (by decide), ((h.2.2.2.2.2.1 "img").2).trans rfl,
    (h.2.2.2.2.2.2 7 (by decide)).2.1⟩

theorem next_waiters (r : PipelineRun) : r.next.waiters = r.waiters := by
  unfold PipelineRun.next
  split <;> rfl

theorem sbomResult_waiters (r : PipelineRun) (o : CallOutcome SBOM) (b : Bool) :
    (r.sbomResult o b).waiters = r.waiters := by
  cases o <;> rfl

theorem cveResult_waiters (r : PipelineRun) (o : CallOutcome CVEManifest) (b : Bool) :
    (r.cveResult o b).waiters = r.waiters := by
  cases o <;> rfl

theorem waiters_step (s : Orchestrator) (a : Action) (h : WaitersOk s) :
    WaitersOk (step s a) := by
  cases a with
  | submit req up =>
    simp only [step, submit]
    cases hi : req.image with
    | none => exact h
    | some I =>
      simp only
      split
      · exact h
      · split
        · exact h
        · split
          · apply forall_mem_map _ _ _ h
            intro r _ hr
            split
            · rename_i hc
              intro q hq
              rcases List.mem_append.1 hq with h1 | h1
              · exact hr q h1
              · rw [List.mem_singleton.1 h1, hi, hc]
            · exact hr
          · intro r hr
            rcases List.mem_append.1 hr with h1 | h1
            · exact h r h1
            · rw [List.mem_singleton.1 h1]
              intro q hq
              have hqe : q = req := by simpa [PipelineRun.queued] using hq
              rw [hqe, hi]
              rfl
  | dispatch =>
    simp only [step, dispatch]
    split
    · exact h
    · split
      · intro r hr
        rcases mem_promoteFirst _ _ hr with h1 | ⟨x, hx, hq, he⟩
        · exact h r h1
        · rw [he]; exact h x hx
      · exact h
  | sbomDone I o b =>
    simp only [step, sbomDone]
    split
    · apply forall_mem_map _ _ _ h
      intro r _ hr
      split
      · rw [sbomResult_waiters, sbomResult_image]; exact hr
      · exact hr
    · exact h
  | sbomCached I =>
    simp only [step, sbomCached]
    split
    · exact h
    · apply forall_mem_map _ _ _ h
      intro r _ hr
      split
      · exact hr
      · exact hr
  | advance I =>
    simp only [step, advance]
    apply forall_mem_map _ _ _ h
    intro r _ hr
    split
    · rw [next_waiters, next_image]; exact hr
    · exact hr
  | cveDone I o b =>
    simp only [step, cveDone]
    split
    · apply forall_mem_map _ _ _ h
      intro r _ hr
      split
      · rw [cveResult_waiters, cveResult_image]; exact hr
      · exact hr
    · exact h
  | finish I =>
    simp only [step, finish]
    split
    · exact h
    · split
      · exact h
      · intro r hr
        exact h r (List.mem_of_mem_erase hr)
  | cancel q =>
    simp only [step, cancel]
    apply forall_mem_map _ _ _ h
    intro r _ hr x hx
    exact hr x (List.mem_of_mem_filter hx)
  | shutdown => exact h
  | graceExpired =>
    simp only [step, graceExpired]
    split
    · apply forall_mem_map _ _ _ h
      intro r _ hr
      split
      · exact hr
      · exact hr
    · exact h

theorem waiters_exec (s : Orchestrator) (acts : List Action) (h : WaitersOk s) :
    WaitersOk (exec s acts) := by
  induction acts generalizing s with
  | nil => exact h
  | cons a as ih => exact ih (step s a) (waiters_step s a h)

theorem waiters_reachable (w : Nat) (acts : List Action) :
    WaitersOk (exec (Orchestrator.init w) acts) :=
  waiters_exec _ acts (by simp [WaitersOk, Orchestrator.init])

theorem promoteFirst_keeps (l : List PipelineRun) (r : PipelineRun) (h : r ∈ l) :
    ∃ r' ∈ promoteFirst l, r'.image = r.image ∧ r'.waiters = r.waiters := by
  induction l with
  | nil => cases h
  | cons y ys ih =>
    unfold promoteFirst
    rcases List.mem_cons.1 h with h1 | h1
    · subst h1
      split
      · exact ⟨_, List.mem_cons_self _ _, rfl, rfl⟩
      · exact ⟨_, List.mem_cons_self _ _, rfl, rfl⟩
    · split
      · exact ⟨r, List.mem_cons_of_mem _ h1, rfl, rfl⟩
      · obtain ⟨r', hr', h2⟩ := ih h1
        exact ⟨r', List.mem_cons_of_mem _ hr', h2⟩

theorem keeps_map (I : ImageIdentity) (cs : List ScanRequest)
    (f : PipelineRun → PipelineRun) (l : List PipelineRun)
    (hi : ∀ x, (f x).image = x.image)
    (hw : ∀ x q, q ∈ cs → q ∈ x.waiters → q ∈ (f x).waiters)
    (r : PipelineRun) (hr : r ∈ l) (hI : r.image = I) :
    ∃ r' ∈ l.map f, r'.image = I ∧
      ∀ q, q ∈ cs → q ∈ r.waiters → q ∈ r'.waiters :=
  ⟨f r, List.mem_map_of_mem f hr, (hi r).trans hI, hw r⟩

/-- One allowed step keeps the run of `I` in the table with the callers among
its waiters, adds a submitted request for `I` to it, creates no run for `I`, and
delivers nothing to a request for `I`. -/
theorem window_step (I : ImageIdentity) (cs : List ScanRequest) (s : Orchestrator)
    (a : Action)
    (hw : WaitersOk s) (r : PipelineRun) (hr : r ∈ s.inflight) (hI : r.image = I)
    (ha : allowed I cs s a = true) :
    (∃ r' ∈ (step s a).inflight, r'.image = I ∧
      (∀ q, q ∈ cs → q ∈ r.waiters → q ∈ r'.waiters) ∧
      (∀ q up, a = .submit q up → q.image = some I → q ∈ r'.waiters)) ∧
    (step s a).created.count I = s.created.count I ∧
    (∀ d ∈ (step s a).delivered, d ∈ s.delivered ∨ d.1.image ≠ some I) := by
  have hsame : ∃ r' ∈ s.inflight, r'.image = I ∧
      (∀ q, q ∈ cs → q ∈ r.waiters → q ∈ r'.waiters) :=
    ⟨r, hr, hI, fun _ _ h => h⟩
  cases a with
  | submit req up =>
    simp only [step, submit]
    cases hi : req.image with
    | none =>
      refine ⟨?_, rfl, ?_⟩
      · obtain ⟨r', h1, h2, h3⟩ := hsame
        refine ⟨r', h1, h2, h3, ?_⟩
        intro q up' he hq
        cases he
        rw [hi] at hq; cases hq
      · intro d hd
        rcases List.mem_append.1 hd with h1 | h1
        · exact Or.inl h1
        · right
          rw [List.mem_singleton.1 h1]
          simp [hi]
    | some J =>
      by_cases hJ : J = I
      · subst hJ
        simp only [allowed, hi, if_true, misses, Bool.and_eq_true, Bool.not_eq_true',
          Option.isNone_iff_eq_none] at ha
        have hany : s.inflight.any (fun x => decide (x.image = J)) = true :=
          List.any_eq_true.2 ⟨r, hr, by simp [hI]⟩
        simp only [ha.1, ha.2, hany, if_true, Bool.false_eq_true, if_false]
        refine ⟨?_, by first | rfl | trivial, fun d hd => Or.inl hd⟩
        refine ⟨_, List.mem_map_of_mem _ hr, ?_, ?_, ?_⟩
        · simp [hI]
        · intro q _ hq
          simp [hI, hq]
        · intro q up' he _
          cases he
          simp [hI]
      · have hne : req.image ≠ some I := by rw [hi]; simpa using hJ
        have hsub : ∀ (r' : PipelineRun) (q : ScanRequest) (up' : Bool),
            Action.submit req up = Action.submit q up' → q.image = some I →
            q ∈ r'.waiters := by
          intro r' q up' he hq
          cases he
          exact absurd hq hne
        simp only
        split
        · refine ⟨?_, rfl, ?_⟩
          · obtain ⟨r', h1, h2, h3⟩ := hsame
            exact ⟨r', h1, h2, h3, hsub r'⟩
          · intro d hd
            rcases List.mem_append.1 hd with h1 | h1
            · exact Or.inl h1
            · right
              rw [List.mem_singleton.1 h1]
              exact hne
        · split
          · refine ⟨?_, rfl, ?_⟩
            · obtain ⟨r', h1, h2, h3⟩ := hsame
              exact ⟨r', h1, h2, h3, hsub r'⟩
            · intro d hd
              rcases List.mem_append.1 hd with h1 | h1
              · exact Or.inl h1
              · right
                rw [List.mem_singleton.1 h1]
                exact hne
          · split
            · refine ⟨?_, rfl, fun d hd => Or.inl hd⟩
              obtain ⟨r', h1, h2, h3⟩ := keeps_map I cs
                (fun x => if x.image = J then { x with waiters := x.waiters ++ [req] } else x)
                s.inflight (by intro x; dsimp only; split <;> rfl)
                (by
                  intro x q _ hq
                  dsimp only
                  split
                  · exact List.mem_append_left _ hq
                  · exact hq) r hr hI
              exact ⟨r', h1, h2, h3, hsub r'⟩
            · refine ⟨?_, ?_, fun d hd => Or.inl hd⟩
              · obtain ⟨r', h1, h2, h3⟩ := hsame
                exact ⟨r', List.mem_append_left _ h1, h2, h3, hsub r'⟩
              · have hz : List.count I [J] = 0 :=
                  List.count_eq_zero.2 (by simpa using fun h : I = J => hJ h.symm)
                simp only [List.count_append, hz, Nat.add_zero]
  | dispatch =>
    have hres : ∃ r' ∈ (step s .dispatch).inflight, r'.image = I ∧
        (∀ q, q ∈ cs → q ∈ r.waiters → q ∈ r'.waiters) := by
      simp only [step, dispatch]
      split
      · exact hsame
      · split
        · obtain ⟨r', h1, h2, h3⟩ := promoteFirst_keeps s.inflight r hr
          exact ⟨r', h1, h2.trans hI, fun q _ hq => h3 ▸ hq⟩
        · exact hsame
    obtain ⟨r', h1, h2, h3⟩ := hres
    refine ⟨⟨r', h1, h2, h3, fun q up he => by cases he⟩, ?_, ?_⟩
    · simp only [step, dispatch]
      repeat (first | rfl | split)
    · intro d hd
      left
      simp only [step, dispatch] at hd
      repeat (first | exact hd | split at hd)
  | sbomDone J o b =>
    have hres : ∃ r' ∈ (step s (.sbomDone J o b)).inflight, r'.image = I ∧
        (∀ q, q ∈ cs → q ∈ r.waiters → q ∈ r'.waiters) := by
      simp only [step, sbomDone]
      split
      · exact keeps_map I cs _ s.inflight
          (by intro x; split
              · exact sbomResult_image x o b
              · rfl)
          (by intro x q _ hq; split
              · rw [sbomResult_waiters]; exact hq
              · exact hq) r hr hI
      · exact hsame
    obtain ⟨r', h1, h2, h3⟩ := hres
    refine ⟨⟨r', h1, h2, h3, fun q up he => by cases he⟩, ?_, ?_⟩
    · simp only [step, sbomDone]
      repeat (first | rfl | split)
    · intro d hd
      left
      simp only [step, sbomDone] at hd
      repeat (first | exact hd | split at hd)
  | sbomCached J =>
    have hres : ∃ r' ∈ (step s (.sbomCached J)).inflight, r'.image = I ∧
        (∀ q, q ∈ cs → q ∈ r.waiters → q ∈ r'.waiters) := by
      simp only [step, sbomCached]
      split
      · exact hsame
      · exact keeps_map I cs _ s.inflight
          (by intro x; split <;> rfl)
          (by intro x q _ hq; split
              · exact hq
              · exact hq) r hr hI
    obtain ⟨r', h1, h2, h3⟩ := hres
    refine ⟨⟨r', h1, h2, h3, fun q up he => by cases he⟩, ?_, ?_⟩
    · simp only [step, sbomCached]
      repeat (first | rfl | split)
    · intro d hd
      left
      simp only [step, sbomCached] at hd
      repeat (first | exact hd | split at hd)
  | advance J =>
    have hres : ∃ r' ∈ (step s (.advance J)).inflight, r'.image = I ∧
        (∀ q, q ∈ cs → q ∈ r.waiters → q ∈ r'.waiters) := by
      simp only [step, advance]
      exact keeps_map I cs _ s.inflight
          (by intro x; split
              · exact next_image x
              · rfl)
          (by intro x q _ hq; split
              · rw [next_waiters]; exact hq
              · exact hq) r hr hI
    obtain ⟨r', h1, h2, h3⟩ := hres
    exact ⟨⟨r', h1, h2, h3, fun q up he => by cases he⟩, rfl, fun d hd => Or.inl hd⟩
  | cveDone J o b =>
    have hres : ∃ r' ∈ (step s (.cveDone J o b)).inflight, r'.image = I ∧
        (∀ q, q ∈ cs → q ∈ r.waiters → q ∈ r'.waiters) := by
      simp only [step, cveDone]
      split
      · exact keeps_map I cs _ s.inflight
          (by intro x; split
              · exact cveResult_image x o b
              · rfl)
          (by intro x q _ hq; split
              · rw [cveResult_waiters]; exact hq
              · exact hq) r hr hI
      · exact hsame
    obtain ⟨r', h1, h2, h3⟩ := hres
    refine ⟨⟨r', h1, h2, h3, fun q up he => by cases he⟩, ?_, ?_⟩
    · simp only [step, cveDone]
      repeat (first | rfl | split)
    · intro d hd
      left
      simp only [step, cveDone] at hd
      repeat (first | exact hd | split at hd)
  | finish J =>
    have hJ : J ≠ I := by simpa [allowed] using ha
    simp only [step, finish]
    cases hf : s.inflight.find? (fun x => decide (x.image = J) && x.result.isSome) with
    | none =>
      obtain ⟨r', h1, h2, h3⟩ := hsame
      exact ⟨⟨r', h1, h2, h3, fun q up he => by cases he⟩, rfl, fun d hd => Or.inl hd⟩
    | some x =>
      have hx : x ∈ s.inflight := List.mem_of_find?_eq_some hf
      have hp := List.find?_some hf
      simp only [Bool.and_eq_true, decide_eq_true_eq] at hp
      dsimp only
      cases hres : x.result with
      | none =>
        dsimp only
        obtain ⟨r', h1, h2, h3⟩ := hsame
        exact ⟨⟨r', h1, h2, h3, fun q up he => by cases he⟩, rfl, fun d hd => Or.inl hd⟩
      | some res =>
        dsimp only
        have hne : r ≠ x := by
          intro he
          rw [he] at hI
          exact hJ (hp.1.symm.trans hI)
        refine ⟨⟨r, (List.mem_erase_of_ne hne).2 hr, hI, fun _ _ h => h,
          fun q up he => by cases he⟩, rfl, ?_⟩
        intro d hd
        rcases List.mem_append.1 hd with h1 | h1
        · exact Or.inl h1
        · right
          obtain ⟨q, hq, rfl⟩ := List.mem_map.1 h1
          simp only
          rw [hw x hx q hq, hp.1]
          simpa using hJ
  | cancel c =>
    have hc : c ∉ cs := by simpa [allowed] using ha
    simp only [step, cancel]
    obtain ⟨r', h1, h2, h3⟩ := keeps_map I cs
      (fun x => { x with waiters := x.waiters.filter (fun q => decide (q ≠ c)) })
      s.inflight (fun x => rfl)
      (by
        intro x q hq hm
        refine List.mem_filter.2 ⟨hm, ?_⟩
        simp only [decide_eq_true_eq]
        intro he
        rw [he] at hq
        exact hc hq) r hr hI
    exact ⟨⟨r', h1, h2, h3, fun q up he => by cases he⟩, trivial, fun d hd => Or.inl hd⟩
  | shutdown =>
    obtain ⟨r', h1, h2, h3⟩ := hsame
    exact ⟨⟨r', h1, h2, h3, fun q up he => by cases he⟩, rfl, fun d hd => Or.inl hd⟩
  | graceExpired =>
    have hres : ∃ r' ∈ (step s .graceExpired).inflight, r'.image = I ∧
        (∀ q, q ∈ cs → q ∈ r.waiters → q ∈ r'.waiters) := by
      simp only [step, graceExpired]
      split
      · exact keeps_map I cs _ s.inflight
          (by intro x; split <;> rfl)
          (by intro x q _ hq; split
              · exact hq
              · exact hq) r hr hI
      · exact hsame
    obtain ⟨r', h1, h2, h3⟩ := hres
    refine ⟨⟨r', h1, h2, h3, fun q up he => by cases he⟩, ?_, ?_⟩
    · simp only [step, graceExpired]
      repeat (first | rfl | split)
    · intro d hd
      left
      simp only [step, graceExpired] at hd
      repeat (first | exact hd | split at hd)

theorem mem_submitsFor_cons (I : ImageIdentity) (a : Action) (as : List Action)
    (q : ScanRequest) (h : q ∈ submitsFor I (a :: as)) :
    (∃ up, a = .submit q up ∧ q.image = some I) ∨ q ∈ submitsFor I as := by
  cases a with
  | submit x up =>
    simp only [submitsFor] at h
    split at h
    · rename_i hx
      rcases List.mem_cons.1 h with h1 | h1
      · subst h1; exact Or.inl ⟨up, rfl, hx⟩
      · exact Or.inr h1
    · exact Or.inr h
  | _ => exact Or.inr h

theorem submitsFor_image (I : ImageIdentity) (acts : List Action) (q : ScanRequest)
    (h : q ∈ submitsFor I acts) : q.image = some I := by
  induction acts with
  | nil => cases h
  | cons a as ih =>
    rcases mem_submitsFor_cons I a as q h with ⟨_, _, h1⟩ | h1
    · exact h1
    · exact ih h1

theorem mem_callersAfter (I : ImageIdentity) (cs : List ScanRequest) (a : Action)
    (q : ScanRequest) (h : q ∈ cs) : q ∈ callersAfter I cs a := by
  cases a with
  | submit x up =>
    simp only [callersAfter]
    split
    · exact List.mem_append_left _ h
    · exact h
  | _ => exact h

theorem mem_callersAfter_submit (I : ImageIdentity) (cs : List ScanRequest)
    (q : ScanRequest) (up : Bool) (h : q.image = some I) :
    q ∈ callersAfter I cs (.submit q up) := by
  simp [callersAfter, h]

/-- Through a whole window the run of `I` stays in the table, keeps the callers
among its waiters, gathers every request submitted for `I`, no run is created for
`I` and nothing is delivered to a request for `I`. -/
theorem window_exec (I : ImageIdentity) (acts : List Action) (cs : List ScanRequest)
    (s : Orchestrator)
    (hw : WaitersOk s) (r : PipelineRun) (hr : r ∈ s.inflight) (hI : r.image = I)
    (hwin : window I cs s acts = true) :
    (∃ r' ∈ (exec s acts).inflight, r'.image = I ∧
      (∀ q, q ∈ cs → q ∈ r.waiters → q ∈ r'.waiters) ∧
      (∀ q ∈ submitsFor I acts, q ∈ r'.waiters)) ∧
    (exec s acts).created.count I = s.created.count I ∧
    (∀ d ∈ (exec s acts).delivered, d ∈ s.delivered ∨ d.1.image ≠ some I) := by
  induction acts generalizing s r cs with
  | nil =>
    exact ⟨⟨r, hr, hI, fun _ _ h => h, fun q hq => by cases hq⟩, rfl, fun d hd => Or.inl hd⟩
  | cons a as ih =>
    simp only [window, Bool.and_eq_true] at hwin
    obtain ⟨⟨r1, hr1, hI1, hk1, hs1⟩, hc1, hd1⟩ := window_step I cs s a hw r hr hI hwin.1
    obtain ⟨⟨r2, hr2, hI2, hk2, hs2⟩, hc2, hd2⟩ :=
      ih (callersAfter I cs a) (step s a) (waiters_step s a hw) r1 hr1 hI1 hwin.2
    refine ⟨⟨r2, hr2, hI2, ?_, ?_⟩, hc2.trans hc1, ?_⟩
    · intro q hq hm
      exact hk2 q (mem_callersAfter I cs a q hq) (hk1 q hq hm)
    · intro q hq
      rcases mem_submitsFor_cons I a as q hq with ⟨up, he, hi⟩ | h1
      · subst he
        exact hk2 q (mem_callersAfter_submit I cs q up hi) (hs1 q up rfl hi)
      · exact hs2 q h1
    · intro d hd
      rcases hd2 d hd with h1 | h1
      · exact hd1 d h1
      · exact Or.inr h1

/-- The first `Submit` for an identity with no run in flight creates the run. -/
theorem submit_creates (s : Orchestrator) (I : ImageIdentity) (q : ScanRequest) (up : Bool)
    (hq : q.image = some I) (hfree : I ∉ images s.inflight) (hm : misses s I q up = true) :
    (step s (.submit q up)).inflight = s.inflight ++ [PipelineRun.queued I q] ∧
    (step s (.submit q up)).created = s.created ++ [I] ∧
    (step s (.submit q up)).delivered = s.delivered := by
  simp only [misses, Bool.and_eq_true, Bool.not_eq_true', Option.isNone_iff_eq_none] at hm
  have hany : s.inflight.any (fun x => decide (x.image = I)) = false := by
    rw [Bool.eq_false_iff]
    intro h
    obtain ⟨x, hx, hxI⟩ := List.any_eq_true.1 h
    apply hfree
    simp only [decide_eq_true_eq] at hxI
    exact List.mem_map.2 ⟨x, hx, hxI⟩
  simp only [step, submit, hq, hm.1, hm.2, hany, Bool.false_eq_true, if_false]
  simp

/-- C1, amended. In every reachable state the in-flight table holds at most one
PipelineRun per ImageIdentity.  From any reachable state with no run in flight for
`I`: when a `Submit` for `I` is issued before drain begins and misses the cache, and
further steps follow, among them any number of `Submit` calls for `I` issued before
drain begins that miss the cache, while the run of `I` is not finished and none of
the requests submitted so far is cancelled, then exactly one run was created for
`I`, it is the only run of `I` in the table, its waiter set holds the first request
and every later one, nothing was delivered to a request for `I` meanwhile, and when
the run is finished with a terminal result every one of them is delivered that same
result.  A `Submit` issued after drain has begun creates no run, joins no waiter
set and is answered `ShutdownInProgress`; a cancelled request is in no waiter set
afterwards and the cancellation delivers nothing. -/
theorem one_run_per_identity (w : Nat) (pre : List Action) :
    (images (exec (.init w) pre).inflight).Nodup ∧
    (∀ (I : ImageIdentity) (q0 : ScanRequest) (up0 : Bool) (acts : List Action),
      q0.image = some I →
      I ∉ images (exec (.init w) pre).inflight →
      misses (exec (.init w) pre) I q0 up0 = true →
      window I [q0] (step (exec (.init w) pre) (.submit q0 up0)) acts = true →
      (exec (step (exec (.init w) pre) (.submit q0 up0)) acts).created.count I =
        (exec (.init w) pre).created.count I + 1 ∧
      (∀ d ∈ (exec (step (exec (.init w) pre) (.submit q0 up0)) acts).delivered,
        d ∈ (exec (.init w) pre).delivered ∨ d.1.image ≠ some I) ∧
      ∃ r ∈ (exec (step (exec (.init w) pre) (.submit q0 up0)) acts).inflight,
        r.image = I ∧
        (∀ x ∈ (exec (step (exec (.init w) pre) (.submit q0 up0)) acts).inflight,
          x.image = I → x = r) ∧
        (∀ q ∈ q0 :: submitsFor I acts, q ∈ r.waiters) ∧
        ∀ res, r.result = some res →
          (step (exec (step (exec (.init w) pre) (.submit q0 up0)) acts) (.finish I)).delivered =
            (exec (step (exec (.init w) pre) (.submit q0 up0)) acts).delivered ++
              r.waiters.map (fun q => (q, res)) ∧
          (∀ q ∈ q0 :: submitsFor I acts,
            (q, res) ∈ (step (exec (step (exec (.init w) pre) (.submit q0 up0)) acts)
              (.finish I)).delivered) ∧
          I ∉ images (step (exec (step (exec (.init w) pre) (.submit q0 up0)) acts)
            (.finish I)).inflight) ∧
    (∀ (I : ImageIdentity) (q : ScanRequest) (up : Bool),
      q.image = some I → (exec (.init w) pre).draining = true →
      (step (exec (.init w) pre) (.submit q up)).inflight = (exec (.init w) pre).inflight ∧
      (step (exec (.init w) pre) (.submit q up)).created = (exec (.init w) pre).created ∧
      (step (exec (.init w) pre) (.submit q up)).delivered =
        (exec (.init w) pre).delivered ++ [(q, Result.failure .ShutdownInProgress)]) ∧
    (∀ q : ScanRequest,
      (∀ r ∈ (step (exec (.init w) pre) (.cancel q)).inflight, q ∉ r.waiters) ∧
      images (step (exec (.init w) pre) (.cancel q)).inflight =
        images (exec (.init w) pre).inflight ∧
      (step (exec (.init w) pre) (.cancel q)).delivered = (exec (.init w) pre).delivered) := by
  have hinv := inv_reachable w pre
  refine ⟨hinv.nodup, ?_, ?_, ?_⟩
  rotate_left
  · intro I q up hq hdr
    simp [step, submit, hq, hdr]
  · intro q
    refine ⟨?_, ?_, rfl⟩
    · intro r hr
      simp only [step, cancel] at hr
      obtain ⟨x, _, rfl⟩ := List.mem_map.1 hr
      simp
    · simp only [step, cancel]
      exact images_map
        (fun r => { r with waiters := r.waiters.filter (fun x => decide (x ≠ q)) })
        (fun _ => rfl) _
  intro I q0 up0 acts hq0 hfree hmiss hwin
  obtain ⟨hin, hcr, hdel⟩ := submit_creates _ I q0 up0 hq0 hfree hmiss
  have hw1 : WaitersOk (step (exec (.init w) pre) (.submit q0 up0)) :=
    waiters_step _ _ (waiters_reachable w pre)
  have hmem : PipelineRun.queued I q0 ∈
      (step (exec (.init w) pre) (.submit q0 up0)).inflight := by
    rw [hin]; simp
  obtain ⟨⟨r, hr, hI, hk, hs⟩, hc, hd⟩ := window_exec I acts [q0] _ hw1 _ hmem rfl hwin
  have hinv2 : Inv (exec (step (exec (.init w) pre) (.submit q0 up0)) acts) :=
    inv_exec _ acts (inv_step _ _ hinv)
  have hall : ∀ q ∈ q0 :: submitsFor I acts, q ∈ r.waiters := by
    intro q hq
    rcases List.mem_cons.1 hq with h1 | h1
    · subst h1
      exact hk q (List.mem_singleton.2 rfl) (by simp [PipelineRun.queued])
    · exact hs q h1
  refine ⟨?_, ?_, r, hr, hI, ?_, hall, ?_⟩
  · rw [hc, hcr, List.count_append]
    simp
  · intro d hd'
    rcases hd d hd' with h1 | h1
    · rw [hdel] at h1; exact Or.inl h1
    · exact Or.inr h1
  · intro x hx hxI
    exact same_of_image _ hinv2.nodup x r hx hr (hxI.trans hI.symm)
  · intro res hres
    have hfin := finish_of_mem _ hinv2.nodup r hr res hres
    rw [hI] at hfin
    have hstep : step (exec (step (exec (.init w) pre) (.submit q0 up0)) acts) (.finish I) =
        finish (exec (step (exec (.init w) pre) (.submit q0 up0)) acts) I := rfl
    rw [hstep, hfin]
    refine ⟨rfl, ?_, ?_⟩
    · intro q hq
      simp only [List.mem_append, List.mem_map]
      exact Or.inr ⟨q, hall q hq, rfl⟩
    · simp only
      intro hmem2
      obtain ⟨x, hx, hxI⟩ := List.mem_map.1 hmem2
      have hx2 : x ∈ (exec (step (exec (.init w) pre) (.submit q0 up0)) acts).inflight :=
        List.mem_of_mem_erase hx
      have : x = r := same_of_image _ hinv2.nodup x r hx2 hr (hxI.trans hI.symm)
      subst this
      have hnd : (exec (step (exec (.init w) pre) (.submit q0 up0)) acts).inflight.Nodup :=
        List.Nodup.of_map _ hinv2.nodup
      exact (List.Nodup.mem_erase_iff hnd).1 hx |>.1 rfl

theorem routes_append (xs ys : List Event) : routes (xs ++ ys) = routes xs ++ routes ys := by
  induction xs with
  | nil => rfl
  | cons e es ih => cases e <;> simp [routes, ih]

theorem workerCounts_append (xs ys : List Event) :
    workerCounts (xs ++ ys) = workerCounts xs ++ workerCounts ys := by
  induction xs with
  | nil => rfl
  | cons e es ih => cases e <;> simp [workerCounts, ih]

theorem waitedContexts_append (xs ys : List Event) :
    waitedContexts (xs ++ ys) = waitedContexts xs ++ waitedContexts ys := by
  induction xs with
  | nil => rfl
  | cons e es ih => cases e <;> simp [waitedContexts, ih]

theorem routes_startup (env : Env) : routes (startup env) = expectedRoutes env := by
  cases h : env.otelCollectorSvc <;>
    simp [startup, routes, h, NewGrypeAdapter, Sprintf, expectedRoutes]

theorem workerCounts_startup (env : Env) : workerCounts (startup env) = [1] := by
  cases h : env.otelCollectorSvc <;> simp [startup, workerCounts, h, NewGrypeAdapter]

theorem main_listenFails (env : Env) (e : String) (h1 : env.listenErr = some e) :
    main env =
      ⟨startup env ++ [.waitDone (ctxAfterOtel env),
        .log .Fatal (some (ctxAfterOtel env)) "router error" (some e)], .exited 1⟩ := by
  simp [main, h1]

theorem main_blocked (env : Env) (h1 : env.listenErr = none)
    (h2 : Context.done env (ctxAfterOtel env) = false) :
    main env = ⟨startup env ++ [.waitDone (ctxAfterOtel env)], .blocked⟩ := by
  simp [main, h1, h2]

theorem main_forced (env : Env) (e : String) (h1 : env.listenErr = none)
    (h2 : Context.done env (ctxAfterOtel env) = true) (h3 : env.srvShutdownErr = some e) :
    main env =
      ⟨startup env ++ [.waitDone (ctxAfterOtel env), .stop,
        .log .Info none "shutting down gracefully" none,
        .withTimeout .Background 5000000000, .srvShutdown graceContext,
        .log .Fatal (some graceContext) "server forced to shutdown" (some e)], .exited 1⟩ := by
  simp [main, h1, h2, h3, Second, graceContext]

theorem main_graceful (env : Env) (h1 : env.listenErr = none)
    (h2 : Context.done env (ctxAfterOtel env) = true) (h3 : env.srvShutdownErr = none) :
    main env =
      ⟨startup env ++ ([.waitDone (ctxAfterOtel env), .stop,
        .log .Info none "shutting down gracefully" none,
        .withTimeout .Background 5000000000, .srvShutdown graceContext,
        .controllerShutdown, .log .Info none "kubevuln exiting" none] ++ deferred env),
        .returned⟩ := by
  simp [main, h1, h2, h3, Second, graceContext]

theorem routes_deferred (env : Env) : routes (deferred env) = [] := by
  cases h : env.otelCollectorSvc <;> simp [deferred, routes, h]

theorem workerCounts_deferred (env : Env) : workerCounts (deferred env) = [] := by
  cases h : env.otelCollectorSvc <;> simp [deferred, workerCounts, h]

theorem waitedContexts_deferred (env : Env) : waitedContexts (deferred env) = [] := by
  cases h : env.otelCollectorSvc <;> simp [deferred, waitedContexts, h]

theorem waitedContexts_startup (env : Env) : waitedContexts (startup env) = [] := by
  cases h : env.otelCollectorSvc <;> simp [startup, waitedContexts, h, NewGrypeAdapter]

/-- The trace of `main` is its startup, the wait, and a tail that registers no
route, builds no controller and waits on no context. -/
theorem main_trace (env : Env) :
    ∃ tail, (main env).trace = startup env ++ .waitDone (ctxAfterOtel env) :: tail ∧
      routes tail = [] ∧ workerCounts tail = [] ∧ waitedContexts tail = [] := by
  cases h1 : env.listenErr with
  | some e =>
    rw [main_listenFails env e h1]
    exact ⟨_, rfl, rfl, rfl, rfl⟩
  | none =>
    cases h2 : Context.done env (ctxAfterOtel env) with
    | false =>
      rw [main_blocked env h1 h2]
      exact ⟨[], rfl, rfl, rfl, rfl⟩
    | true =>
      cases h3 : env.srvShutdownErr with
      | some e =>
        rw [main_forced env e h1 h2 h3]
        exact ⟨_, rfl, rfl, rfl, rfl⟩
      | none =>
        rw [main_graceful env h1 h2 h3]
        refine ⟨([.stop, .log .Info none "shutting down gracefully" none,
          .withTimeout .Background 5000000000, .srvShutdown graceContext,
          .controllerShutdown, .log .Info none "kubevuln exiting" none] : List Event)
          ++ deferred env, by simp, ?_, ?_, ?_⟩
        · rw [routes_append, routes_deferred]; rfl
        · rw [workerCounts_append, workerCounts_deferred]; rfl
        · rw [waitedContexts_append, waitedContexts_deferred]; rfl

theorem routes_main (env : Env) : routes (main env).trace = expectedRoutes env := by
  obtain ⟨tail, ht, hr, _, _⟩ := main_trace env
  rw [ht, routes_append, routes_startup]
  simp [routes, hr]

theorem workerCounts_main (env : Env) : workerCounts (main env).trace = [1] := by
  obtain ⟨tail, ht, _, hw, _⟩ := main_trace env
  rw [ht, workerCounts_append, workerCounts_startup]
  simp [workerCounts, hw]

/-- C1, counterexample.  Two `Submit` calls for "img" are issued before the run
completes and without a cache hit.  In `submitWhileDraining` the second one comes
after the stop signal: it is not added to the waiter set of the run and is answered
`ShutdownInProgress`, while the first caller receives the result of the run.  In
`submitThenCancel` the second request is cancelled: only the first caller receives
a result. -/
theorem later_submit_not_joined :
    lookup (exec (.init 1) (submitWhileDraining.take 3)) "img" reqC.stages true = none ∧
    "img" ∈ images (exec (.init 1) (submitWhileDraining.take 3)).inflight ∧
    (∀ r ∈ (exec (.init 1) (submitWhileDraining.take 4)).inflight, reqC ∉ r.waiters) ∧
    (exec (.init 1) submitWhileDraining).created = ["img"] ∧
    (exec (.init 1) submitWhileDraining).delivered =
      [(reqC, Result.failure .ShutdownInProgress), (reqA, Result.success 7 (some 9))] ∧
    (exec (.init 1) (submitThenCancel.take 2)).delivered = [] ∧
    (exec (.init 1) submitThenCancel).created = ["img"] ∧
    (exec (.init 1) submitThenCancel).delivered =
      [(reqA, Result.failure .SBOMGenerationError)] := by
  decide

/-- C1, witness. -/
theorem one_run_per_identity_witness :
    (exec (step (exec (.init 1) []) (.submit reqA true)) concurrentSubmits).created.count "img"
      = 1 ∧
    ∀ q ∈ [reqA, reqB, reqC], (q, Result.failure .SBOMGenerationError) ∈
      (step (exec (step (exec (.init 1) []) (.submit reqA true)) concurrentSubmits)
        (.finish "img")).delivered := by
  obtain ⟨hc, _, r, hr, _, _, hall, hfin⟩ :=
    (one_run_per_identity 1 []).2.1 "img" reqA true concurrentSubmits rfl (by decide) rfl rfl
  refine ⟨hc, ?_⟩
  have hin : (exec (step (exec (.init 1) []) (.submit reqA true)) concurrentSubmits).inflight
      = [runFailed, { image := "other", stages := .sbomOnly, stage := .Queued, sbom := none,
                      cve := none, waiters := [reqOther], calls := [] }] := by decide
  rw [hin] at hr
  have hres : r.result = some (.failure .SBOMGenerationError) := by
    rcases List.mem_cons.1 hr with h1 | h1
    · rw [h1]; rfl
    · rw [List.mem_singleton.1 h1] at hall
      exact absurd (hall reqA (by decide)) (by decide)
  exact (hfin _ hres).2.1

/-- C2. The number of executing PipelineRuns never exceeds the configured worker
count; `main` configures the count 1, so under `main` at most one run executes in
every reachable state. -/
theorem pool_never_exceeds_workers (workers : Nat) (acts : List Action) (env : Env) :
    executingCount (exec (.init workers) acts) ≤ workers ∧
    workerCounts (main env).trace = [1] ∧
    executingCount (exec (.init (mainWorkers env)) acts) ≤ 1 := by
  have h : ∀ n, executingCount (exec (.init n) acts) ≤ n := by
    intro n
    have := (inv_reachable n acts).bounded
    rwa [workers_exec] at this
  refine ⟨h workers, workerCounts_main env, ?_⟩
  have : mainWorkers env = 1 := by
    unfold mainWorkers
    rw [workerCounts_main]; rfl
  rw [this]
  exact h 1

/-- C3, witness: the run of "img" enters `ResolvingCVEs` from `SBOMReady`, with
the SBOM the Generator returned for "img". -/
theorem cve_stage_only_after_sbom_witness :
    ∃ r ∈ (exec (.init 1) [.submit reqA true, .dispatch, .sbomDone "img" (.ok 7) true]).inflight,
      r.image = "img" ∧ r.sbom = some 7 ∧ r.sbom.isSome = true ∧
      (r.stage = .SBOMReady ∨ r.stage = .ResolvingCVEs) ∧
      ∃ sb, some 7 = some sb ∧ ("img", sb) ∈
        (exec (.init 1) [.submit reqA true, .dispatch, .sbomDone "img" (.ok 7) true]).generated :=
  (cve_stage_only_after_sbom 1 [.submit reqA true, .dispatch, .sbomDone "img" (.ok 7) true]).1
    (.advance "img") runResolving (by decide) rfl

theorem startup_early (env : Env) : ∀ e ∈ startup env, e.late = false := by
  cases ho : env.otelCollectorSvc <;> simp [startup, ho, NewGrypeAdapter, Event.late]

theorem startup_events (env : Env) (e : Event) (h : e ∈ startup env) :
    (∀ c, e ≠ .srvShutdown c) ∧ e ≠ .controllerShutdown ∧ (∀ l c m x, e ≠ .log l c m x) := by
  have hq := startup_early env e h
  cases e <;> simp [Event.late] at hq ⊢

theorem done_grype (env : Env) (err : Option String) (c : Context) :
    Context.done { env with grypeErr := err } c = Context.done env c := by
  induction c with
  | Background => rfl
  | NotifyContext p sigs ih => simp only [Context.done, ih]
  | InitOtel a b c d => rfl
  | WithTimeout p n ih => rfl

/-- C5, counterexample: SIGTERM is received, the HTTP server is shut down, its
`Shutdown` returns an error, and the process exits with status 1 without
`controller.Shutdown` having been called. -/
theorem purge_skipped_when_shutdown_fails :
    envShutdownFails.signal = some .SIGTERM ∧
    Event.srvShutdown graceContext ∈ (main envShutdownFails).trace ∧
    Event.controllerShutdown ∉ (main envShutdownFails).trace ∧
    (main envShutdownFails).outcome = .exited 1 := by
  decide

/-- C5, amended. On every execution in which the wait of `main` on `ctx.Done()`
ends (with `OTEL_COLLECTOR_SVC` unset this means that SIGINT or SIGTERM was
delivered): when `srv.Shutdown` returns nil, `main` calls `srv.Shutdown` and next
`controller.Shutdown`, neither having been called before, and returns; when
`srv.Shutdown` returns an error, `main` has called `srv.Shutdown`, its last action
is to log that error with `Fatal` and the message "server forced to shutdown", it
never calls `controller.Shutdown`, and the process exits with status 1. -/
theorem shutdown_then_purge (env : Env) (hl : env.listenErr = none)
    (hd : Context.done env (ctxAfterOtel env) = true) :
    (env.otelCollectorSvc = none → env.signal = some .SIGINT ∨ env.signal = some .SIGTERM) ∧
    (env.srvShutdownErr = none →
      (∃ pre post, (main env).trace =
          pre ++ Event.srvShutdown graceContext :: Event.controllerShutdown :: post ∧
        (∀ c, Event.srvShutdown c ∉ pre) ∧ Event.controllerShutdown ∉ pre) ∧
      (main env).outcome = .returned) ∧
    (∀ e, env.srvShutdownErr = some e →
      Event.srvShutdown graceContext ∈ (main env).trace ∧
      (∃ pre, (main env).trace =
          pre ++ [Event.srvShutdown graceContext,
            Event.log .Fatal (some graceContext) "server forced to shutdown" (some e)] ∧
        (∀ c, Event.srvShutdown c ∉ pre)) ∧
      Event.controllerShutdown ∉ (main env).trace ∧
      (main env).outcome = .exited 1) := by
  refine ⟨?_, ?_, ?_⟩
  · intro ho
    simp only [ctxAfterOtel, ho, Context.done, Bool.false_or] at hd
    cases hsig : env.signal with
    | none => simp [hsig] at hd
    | some sig => cases sig <;> simp
  · intro hs
    rw [main_graceful env hl hd hs]
    refine ⟨⟨startup env ++ [.waitDone (ctxAfterOtel env), .stop,
        .log .Info none "shutting down gracefully" none,
        .withTimeout .Background 5000000000],
      .log .Info none "kubevuln exiting" none :: deferred env, by simp, ?_, ?_⟩, rfl⟩
    · intro c hc
      rcases List.mem_append.1 hc with h | h
      · exact (startup_events env _ h).1 c rfl
      · simp at h
    · intro hc
      rcases List.mem_append.1 hc with h | h
      · exact (startup_events env _ h).2.1 rfl
      · simp at h
  · intro e hs
    rw [main_forced env e hl hd hs]
    refine ⟨by simp, ⟨startup env ++ [.waitDone (ctxAfterOtel env), .stop,
        .log .Info none "shutting down gracefully" none,
        .withTimeout .Background 5000000000], by simp, ?_⟩, ?_, rfl⟩
    · intro c hc
      rcases List.mem_append.1 hc with h | h
      · exact (startup_events env _ h).1 c rfl
      · simp at h
    · intro hc
      rcases List.mem_append.1 hc with h | h
      · exact (startup_events env _ h).2.1 rfl
      · simp at h

/-- C5, witness. -/
theorem shutdown_then_purge_witness :
    ∃ pre post, (main envGraceful).trace =
      pre ++ Event.srvShutdown graceContext :: Event.controllerShutdown :: post ∧
      (∀ c, Event.srvShutdown c ∉ pre) ∧ Event.controllerShutdown ∉ pre :=
  ((shutdown_then_purge envGraceful rfl (by decide)).2.1 rfl).1

/-- C6, at the failing input: with `OTEL_COLLECTOR_SVC` set, the context `main`
blocks on is the one returned by `logger.InitOtel`, which is not the context of
`signal.NotifyContext`; SIGTERM is delivered and `main` stays blocked; and when that
context is done without any signal, `main` shuts down. -/
theorem otel_context_replaces_signal_context :
    waitedContexts (main envOtel).trace =
      [Context.InitOtel "kubevuln" "" "" "otel-collector:4317"] ∧
    Context.InitOtel "kubevuln" "" "" "otel-collector:4317" ≠
      Context.NotifyContext .Background [.SIGINT, .SIGTERM] ∧
    envOtel.signal = some .SIGTERM ∧
    (main envOtel).outcome = .blocked ∧
    Event.srvShutdown graceContext ∉ (main envOtel).trace ∧
    Event.srvShutdown graceContext ∈
      (main { envOtel with signal := none, otelDone := true }).trace := by
  decide

/-- C7. The routes `main` registers are exactly three: GET "/v1/ready" bound to
`Ready`, POST at version/SBOM-path bound to `GenerateSBOM`, POST at
version/scan-path bound to `ScanCVE`. -/
theorem main_registers_three_routes (env : Env) :
    routes (main env).trace =
      [ ⟨.GET, "/v1/ready", .Ready⟩,
        ⟨.POST, env.WebsocketScanCommandVersion ++ "/" ++ env.SBOMCalculationCommandPath,
          .GenerateSBOM⟩,
        ⟨.POST, env.WebsocketScanCommandVersion ++ "/" ++ env.WebsocketScanCommandPath,
          .ScanCVE⟩ ] ∧
    (routes (main env).trace).length = 3 := by
  rw [routes_main]
  exact ⟨rfl, rfl⟩

/-- C8. Whenever `main` calls `srv.Shutdown`, the context it passes is a timeout
context of exactly 5 seconds (5000000000 ns) whose parent is `context.Background`;
it is not the signal context and not the variable `ctx` as it was during the
wait. -/
theorem shutdown_grace_is_five_seconds (env : Env) (c : Context)
    (h : Event.srvShutdown c ∈ (main env).trace) :
    c = Context.WithTimeout .Background (5 * Second) ∧
    5 * Second = 5000000000 ∧
    c ≠ Context.NotifyContext .Background [.SIGINT, .SIGTERM] ∧
    c ≠ ctxAfterOtel env := by
  have hc : c = graceContext := by
    cases h1 : env.listenErr with
    | some e =>
      rw [main_listenFails env e h1] at h
      rcases List.mem_append.1 h with h | h
      · exact absurd rfl ((startup_events env _ h).1 c)
      · simp at h
    | none =>
      cases h2 : Context.done env (ctxAfterOtel env) with
      | false =>
        rw [main_blocked env h1 h2] at h
        rcases List.mem_append.1 h with h | h
        · exact absurd rfl ((startup_events env _ h).1 c)
        · simp at h
      | true =>
        cases h3 : env.srvShutdownErr with
        | some e =>
          rw [main_forced env e h1 h2 h3] at h
          rcases List.mem_append.1 h with h | h
          · exact absurd rfl ((startup_events env _ h).1 c)
          · simpa using h
        | none =>
          rw [main_graceful env h1 h2 h3] at h
          rcases List.mem_append.1 h with h | h
          · exact absurd rfl ((startup_events env _ h).1 c)
          · rcases List.mem_append.1 h with h | h
            · simpa using h
            · cases ho : env.otelCollectorSvc <;> simp [deferred, ho] at h
  subst hc
  refine ⟨rfl, rfl, by decide, ?_⟩
  cases ho : env.otelCollectorSvc <;> simp [ctxAfterOtel, ho, graceContext]

/-- C8, witness. -/
theorem shutdown_grace_is_five_seconds_witness :
    Event.srvShutdown graceContext ∈ (main envGraceful).trace ∧
    graceContext = Context.WithTimeout .Background (5 * Second) ∧
    5 * Second = 5000000000 :=
  ⟨by decide,
   (shutdown_grace_is_five_seconds envGraceful graceContext (by decide)).1,
   (shutdown_grace_is_five_seconds envGraceful graceContext (by decide)).2.1⟩

/-- C10. Whatever error `v1.NewGrypeAdapter` returns, `main` does the same as
with no error: it passes the returned adapter to `services.NewScanService`,
registers the three routes and starts `ListenAndServe`; the only error values
`main` ever logs are the one of `ListenAndServe` and the one of `srv.Shutdown`. -/
theorem grype_error_discarded (env : Env) (err : Option String) :
    main { env with grypeErr := err } = main env ∧
    Event.newScanService env.grypeAdapter ∈ (main env).trace ∧
    routes (main env).trace = expectedRoutes env ∧
    Event.goListenAndServe ":8080" ∈ (main env).trace ∧
    (∀ l c m x, Event.log l c m x ∈ (main env).trace →
      x = none ∨ (m = "router error" ∧ x = env.listenErr) ∨
      (m = "server forced to shutdown" ∧ x = env.srvShutdownErr)) := by
  have hstart : ∀ e, e ∈ startup env → e ∈ (main env).trace := by
    intro e he
    obtain ⟨tail, ht, _⟩ := main_trace env
    rw [ht]
    exact List.mem_append_left _ he
  refine ⟨?_, ?_, routes_main env, ?_, ?_⟩
  · have h1 : startup { env with grypeErr := err } = startup env := rfl
    have h2 : ctxAfterOtel { env with grypeErr := err } = ctxAfterOtel env := rfl
    have h3 : deferred { env with grypeErr := err } = deferred env := rfl
    unfold main
    simp only [h1, h2, h3, done_grype]
  · apply hstart
    cases ho : env.otelCollectorSvc <;> simp [startup, ho, NewGrypeAdapter]
  · apply hstart
    cases ho : env.otelCollectorSvc <;> simp [startup, ho, NewGrypeAdapter]
  · intro l c m x h
    cases h1 : env.listenErr with
    | some e =>
      rw [main_listenFails env e h1] at h
      rcases List.mem_append.1 h with h | h
      · exact absurd rfl ((startup_events env _ h).2.2 l c m x)
      · simp at h
        exact Or.inr (Or.inl ⟨h.2.2.1, h.2.2.2⟩)
    | none =>
      cases h2 : Context.done env (ctxAfterOtel env) with
      | false =>
        rw [main_blocked env h1 h2] at h
        rcases List.mem_append.1 h with h | h
        · exact absurd rfl ((startup_events env _ h).2.2 l c m x)
        · simp at h
      | true =>
        cases h3 : env.srvShutdownErr with
        | some e =>
          rw [main_forced env e h1 h2 h3] at h
          rcases List.mem_append.1 h with h | h
          · exact absurd rfl ((startup_events env _ h).2.2 l c m x)
          · simp at h
            rcases h with h | h
            · exact Or.inl h.2.2.2
            · exact Or.inr (Or.inr ⟨h.2.2.1, h.2.2.2⟩)
        | none =>
          rw [main_graceful env h1 h2 h3] at h
          rcases List.mem_append.1 h with h | h
          · exact absurd rfl ((startup_events env _ h).2.2 l c m x)
          · rcases List.mem_append.1 h with h | h
            · simp at h
              rcases h with h | h
              · exact Or.inl h.2.2.2
              · exact Or.inl h.2.2.2
            · cases ho : env.otelCollectorSvc <;> simp [deferred, ho] at h

/-- C10, witness: with a failing `v1.NewGrypeAdapter`, `main` serves. -/
theorem grype_error_discarded_witness :
    envGrypeFails.grypeErr = some "failed to load database" ∧
    Event.newScanService 0 ∈ (main envGrypeFails).trace ∧
    Event.goListenAndServe ":8080" ∈ (main envGrypeFails).trace ∧
    main envGrypeFails = main { envGrypeFails with grypeErr := none } :=
  ⟨rfl, (grype_error_discarded envGrypeFails none).2.1,
    (grype_error_discarded envGrypeFails none).2.2.2.1,
    (grype_error_discarded envGrypeFails none).1.symm⟩

end Kubevuln
